import Mathlib

/-!
# Verification of the A2A agent system against its specification

Shallow embedding of the core components of the repository:

* `backend/agents/tools.py` — `ToolResultCache`, `EnhancedToolManager.execute_tool`
  and the built-in tools;
* `backend/agents/cognitive.py` — `CognitiveProcessor._assess_complexity`;
* `backend/agents/memory.py` — the short-term `deque` buffer and
  `update_environment_context`;
* `backend/agents/a2a_manager.py` — `A2AAgentManager.collaborate_agents` and
  `collaborate_agents_stream`;
* `backend/api/agents_a2a.py` — the SSE `event_generator` wrapper.

Modelling conventions:

* Python values that can appear in argument dictionaries, tool results and
  context maps are modelled by `PyVal`.  The constructor `PyVal.obj` stands for
  an arbitrary Python object that `json.dumps` cannot serialize.
* Python `dict`s are modelled as association lists with insert-or-replace
  semantics (`dictInsert`), preserving insertion order as CPython does.
* Wall-clock time is modelled by an explicit natural-number instant passed to
  every operation that reads the clock.  Durations recorded in events and in
  the execution-statistics tracker are pure wall-clock measurements with no
  effect on control flow, so they are elided from the embedding; the
  `ToolExecutionTracker` (whose state no claim mentions) is elided with them.
* `sha256` hashing of cache keys is elided: the un-hashed
  `f"{tool_name}:{args_str}"` string itself is used as the key, which
  identifies exactly the same pairs assuming no hash collision.
* Code that raises is modelled with `Except String`, the error text following
  the Python exception message.
-/

/-- A Python runtime value, as far as the embedded code inspects it.
`obj` is an opaque Python object that is not JSON-serializable
(`json.dumps` raises `TypeError` on it). -/
inductive PyVal where
  | str (s : String)
  | int (n : Int)
  | bool (b : Bool)
  | pynone
  | list (xs : List PyVal)
  | obj (tag : Nat)

/-- A Python argument dictionary `Dict[str, Any]`: an association list of
string keys and values (CPython iteration order = insertion order). -/
abbrev PyDict := List (String × PyVal)

/-- Membership test for an association-list dictionary (`key in d`). -/
def dictMem (d : List (String × α)) (k : String) : Bool :=
  d.any (fun p => p.1 == k)

/-- Lookup in an association-list dictionary (`d.get(key)`), first binding. -/
def dictFind? (d : List (String × α)) (k : String) : Option α :=
  match d.find? (fun p => p.1 == k) with
  | some p => some p.2
  | none => none

/-- `d[key] = value`: replace the binding in place if the key is present
(keeping its position, as CPython does), otherwise append it. -/
def dictInsert (d : List (String × α)) (k : String) (v : α) : List (String × α) :=
  if dictMem d k then d.map (fun p => if p.1 == k then (k, v) else p)
  else d ++ [(k, v)]

/-- `del d[key]`: remove the binding of `k`. -/
def dictErase (d : List (String × α)) (k : String) : List (String × α) :=
  d.filter (fun p => p.1 != k)

/-- `d.update(u)`: merge every binding of `u` into `d`, left to right. -/
def dictUpdate (d u : List (String × α)) : List (String × α) :=
  u.foldl (fun acc p => dictInsert acc p.1 p.2) d

/-- Byte-wise "less or equal" on strings, standing in for the Python string
comparison used by `sorted`/`sort_keys` on the (ASCII) key strings. -/
def charListLe : List Char → List Char → Bool
  | [], _ => true
  | _ :: _, [] => false
  | a :: as, b :: bs =>
    if a.toNat < b.toNat then true
    else if b.toNat < a.toNat then false
    else charListLe as bs

/-- Key order used by `json.dumps(..., sort_keys=True)`. -/
def strKeyLe (a b : String) : Bool := charListLe a.data b.data

/-- Insertion into a key-sorted pair list (stable). -/
def insertSortedByKey (p : String × PyVal) :
    List (String × PyVal) → List (String × PyVal)
  | [] => [p]
  | q :: qs => if strKeyLe p.1 q.1 then p :: q :: qs else q :: insertSortedByKey p qs

/-- Stable insertion sort of dictionary items by key
(the ordering `sort_keys=True` applies). -/
def sortByKey : List (String × PyVal) → List (String × PyVal)
  | [] => []
  | p :: ps => insertSortedByKey p (sortByKey ps)

/-- `json.dumps` on a single value: `none` models the `TypeError` raised on a
non-serializable object.  String escaping is elided (keys and string values in
this development contain no characters needing escapes). -/
def dumps : PyVal → Option String
  | .str s => some ("\"" ++ s ++ "\"")
  | .int n => some (toString n)
  | .bool b => some (if b then "true" else "false")
  | .pynone => some "null"
  | .list xs => (dumpsList xs).map (fun body => "[" ++ body ++ "]")
  | .obj _ => none
where dumpsList : List PyVal → Option String
  | [] => some ""
  | [x] => dumps x
  | x :: y :: xs =>
    (dumps x).bind (fun sx => (dumpsList (y :: xs)).map (fun rest => sx ++ ", " ++ rest))

/-- `json.dumps(arguments, sort_keys=True)` on an argument dictionary. -/
def dumpsDict (args : PyDict) : Option String :=
  (pairsBody (sortByKey args)).map (fun body => "\x7b" ++ body ++ "\x7d")
where
  pairBody (p : String × PyVal) : Option String :=
    (dumps p.2).map (fun v => "\"" ++ p.1 ++ "\": " ++ v)
  pairsBody : List (String × PyVal) → Option String
    | [] => some ""
    | [p] => pairBody p
    | p :: q :: ps =>
      (pairBody p).bind (fun sp => (pairsBody (q :: ps)).map (fun rest => sp ++ ", " ++ rest))

/-! ## `ToolResultCache` (backend/agents/tools.py lines 135–221) -/

/-- One cache entry: `{"timestamp": ..., "result": ...}`.  The ISO timestamp
string is modelled by the natural-number instant it denotes. -/
structure CacheEntry where
  timestamp : Nat
  result : PyVal

/-- State of a `ToolResultCache(ttl_seconds, max_size)`. -/
structure CacheState where
  ttl : Nat
  maxSize : Nat
  entries : List (String × CacheEntry)

namespace ToolResultCache

/-- `_generate_cache_key`: `f"{tool_name}:{json.dumps(arguments, sort_keys=True)}"`
(the final `sha256` hexdigest is elided, see the header).  `none` models the
`TypeError` that `json.dumps` raises on non-serializable arguments. -/
def generateCacheKey (toolName : String) (args : PyDict) : Option String :=
  (dumpsDict args).map (fun argsStr => toolName ++ ":" ++ argsStr)

/-- `ToolResultCache.get(tool_name, arguments)` at instant `now`.

Returns the Python value the method returns (`PyVal.pynone` both for a miss
and for the expiry path) together with the possibly-shrunk cache; `.error`
models the `TypeError` escaping from `_generate_cache_key`. -/
def get (c : CacheState) (now : Nat) (toolName : String) (args : PyDict) :
    Except String (PyVal × CacheState) :=
  match generateCacheKey toolName args with
  | none => .error "TypeError: Object of type object is not JSON serializable"
  | some key =>
    match dictFind? c.entries key with
    | none => .ok (.pynone, c)
    | some entry =>
      if now - entry.timestamp > c.ttl then
        .ok (.pynone, { c with entries := dictErase c.entries key })
      else
        .ok (entry.result, c)

/-- The key of the entry with the smallest timestamp, first such entry on
ties, matching `min(cache.keys(), key=lambda k: cache[k]["timestamp"])` over
insertion order; `none` on an empty cache (where the Python `min` raises). -/
def oldestKey : List (String × CacheEntry) → Option String
  | [] => none
  | (k, e) :: rest => some (go k e.timestamp rest)
where go (best : String) (bestTs : Nat) : List (String × CacheEntry) → String
  | [] => best
  | (k, e) :: rest => if e.timestamp < bestTs then go k e.timestamp rest else go best bestTs rest

/-- `ToolResultCache.set(tool_name, arguments, result)` at instant `now`.

Mirrors the source order: the capacity check and eviction of the
oldest-timestamped entry happen *before* the cache key is generated.
`.error` models the `ValueError` from `min` on an empty cache (reachable only
with `max_size = 0`) and the `TypeError` from `_generate_cache_key`. -/
def set (c : CacheState) (now : Nat) (toolName : String) (args : PyDict)
    (result : PyVal) : Except String CacheState :=
  let step :=
    if c.entries.length ≥ c.maxSize then
      match oldestKey c.entries with
      | none => Except.error "ValueError: min() arg is an empty sequence"
      | some old => Except.ok (dictErase c.entries old)
    else Except.ok c.entries
  match step with
  | .error e => .error e
  | .ok entries₁ =>
    match generateCacheKey toolName args with
    | none => .error "TypeError: Object of type object is not JSON serializable"
    | some key => .ok { c with entries := dictInsert entries₁ key ⟨now, result⟩ }

end ToolResultCache

/-! ## Built-in tools and `EnhancedToolManager` (backend/agents/tools.py lines 223–523) -/

/-- A registered tool capability (`ToolCapability`); the JSON parameter schema
is inert registry data and is elided. -/
structure ToolCapability where
  name : String
  description : String
  category : String
  serverName : Option String
  isBuiltin : Bool

/-- State of an `EnhancedToolManager`: `mcpAvailable` models
`self.mcp_client is not None`; the `ToolExecutionTracker` is elided (pure
wall-clock bookkeeping, see the header). -/
structure ToolManagerState where
  agentId : String
  mcpAvailable : Bool
  tools : List (String × ToolCapability)
  cache : CacheState

/-- `_register_builtin_tools`: the two built-in capabilities. -/
def builtinTools : List (String × ToolCapability) :=
  [("text_summarize",
    ⟨"text_summarize", "Summarize a long text into key points", "text_processing", none, true⟩),
   ("text_extract_keywords",
    ⟨"text_extract_keywords", "Extract keywords from text", "text_processing", none, true⟩)]

/-- A fresh `EnhancedToolManager(agent_id, mcp_client)`:
cache configured with `ttl_seconds=300, max_size=100`. -/
def ToolManagerState.init (agentId : String) (mcpAvailable : Bool) : ToolManagerState :=
  ⟨agentId, mcpAvailable, builtinTools, ⟨300, 100, []⟩⟩

/-- Python `s[:n]` for an `int` index `n` (negative indices count from the
end, clamped at the ends). -/
def pyTake (s : String) (n : Int) : String :=
  if 0 ≤ n then String.mk (s.data.take n.toNat)
  else String.mk (s.data.take (s.length - (-n).toNat))

/-- Lower-casing standing in for Python `str.lower()`
(the `mapAux` recursion of `String.toLower` does not reduce in the kernel). -/
def strLower (s : String) : String := String.mk (s.data.map Char.toLower)

/-- The Python `needle in hay` substring test. -/
def strContains (hay needle : String) : Bool := decide (needle.data <:+: hay.data)

/-- Whitespace recognised by Python `str.split()` (the characters occurring in
this development). -/
def isPyWs (c : Char) : Bool := c == ' ' || c == '\t' || c == '\n' || c == '\r'

/-- Python `str.split()`: maximal runs of non-whitespace, no empty words. -/
def pyWordsAux : List Char → List Char → List String
  | [], acc => if acc.isEmpty then [] else [String.mk acc.reverse]
  | c :: cs, acc =>
    if isPyWs c then
      if acc.isEmpty then pyWordsAux cs [] else String.mk acc.reverse :: pyWordsAux cs []
    else pyWordsAux cs (c :: acc)

/-- Python `s.split()`. -/
def pyWords (s : String) : List String := pyWordsAux s.data []

/-- The stop-word set of `text_extract_keywords`. -/
def stopWords : List String :=
  ["the", "a", "an", "and", "or", "but", "in", "on", "at", "to", "for"]

/-- `Counter(keywords)`: counts in first-encounter order, as the CPython
insertion-ordered dict gives. -/
def counterOf (ws : List String) : List (String × Nat) :=
  ws.foldl bump []
where bump (d : List (String × Nat)) (w : String) : List (String × Nat) :=
  if d.any (fun p => p.1 == w) then d.map (fun p => if p.1 == w then (p.1, p.2 + 1) else p)
  else d ++ [(w, 1)]

/-- Stable descending insertion by count (ties keep first-encounter order),
matching the `nlargest` call of `Counter.most_common` on the items. -/
def insertByCountDesc (p : String × Nat) : List (String × Nat) → List (String × Nat)
  | [] => [p]
  | q :: qs => if q.2 ≤ p.2 then p :: q :: qs else q :: insertByCountDesc p qs

/-- `Counter.most_common(n)` (for an `int` argument `n`): the `n` highest
counts; `n ≤ 0` yields `[]`. -/
def mostCommon (d : List (String × Nat)) (n : Int) : List (String × Nat) :=
  (d.foldr insertByCountDesc []).take n.toNat

/-- `_execute_builtin_tool(tool_name, arguments)`: `.error` models any raised
exception (the explicit `ValueError` for an unknown built-in name, and the
`TypeError`s Python raises when an argument has the wrong runtime type). -/
def executeBuiltinTool (toolName : String) (args : PyDict) : Except String PyVal :=
  if toolName == "text_summarize" then
    match (dictFind? args "text").getD (.str ""), (dictFind? args "max_length").getD (.int 200) with
    | .str text, .int maxLength =>
      .ok (.str (pyTake text maxLength ++ (if (text.length : Int) > maxLength then "..." else "")))
    | _, _ => .error "TypeError: bad operand type in text_summarize"
  else if toolName == "text_extract_keywords" then
    match (dictFind? args "text").getD (.str ""), (dictFind? args "count").getD (.int 5) with
    | .str text, .int count =>
      let words := pyWords (strLower text)
      let keywords := words.filter (fun w => !(stopWords.any (fun s => s == w)) && w.length > 3)
      .ok (.list ((mostCommon (counterOf keywords) count).map (fun p => .str p.1)))
    | _, _ => .error "TypeError: bad operand type in text_extract_keywords"
  else .error ("Unknown built-in tool: " ++ toolName)

/-- `tool_name.split('_', 1)` when it yields two parts: the text before the
first underscore and the rest; `none` when no underscore occurs (the
`len(parts) != 2` branch). -/
def splitServerTool (s : String) : Option (String × String) :=
  go s.data []
where go : List Char → List Char → Option (String × String)
  | [], _ => none
  | c :: cs, acc =>
    if c == '_' then some (String.mk acc.reverse, String.mk cs)
    else go cs (c :: acc)

/-- Is the `PyVal` the Python `None` value (the `cached_result is not None` test)? -/
def PyVal.isNone : PyVal → Bool
  | .pynone => true
  | _ => false

/-- `EnhancedToolManager.execute_tool(tool_name, arguments, use_cache)` at
instant `now`, with the `call_tool` capability of the external protocol abstracted by
`mcpCall : server → tool → args → result-or-exception`.

The outer `Except` models an exception escaping to the caller: the only such
path is the `TypeError` from `_generate_cache_key` inside the pre-`try` cache
lookup.  Inside the `try` block every raise is caught by the
`except Exception` handler and turned into `(False, None, str(e))`; the
early `return (False, None, error)` branches (unknown tool, missing MCP
client, malformed external name) are plain returns, not exceptions.  The
result-caching `cache.set` sits inside the `try`, so its failures are
caught; its `TypeError` branch is unreachable here because the same
arguments already passed key generation in `cache.get`.

Below, `executeToolTry` is the body of the `try` block (lines 421–466): tool
resolution, the soft early-return branches, dispatch to the built-in handler
or the external `call_tool`, and the result caching; its `.error` is any
raise that the `except Exception` handler catches. -/
def executeToolTry (st₁ : ToolManagerState)
    (mcpCall : String → String → PyDict → Except String PyVal)
    (now : Nat) (toolName : String) (args : PyDict) (useCache : Bool) :
    Except String ((Bool × PyVal × Option String) × ToolManagerState) :=
  match dictFind? st₁.tools toolName with
  | none => .ok ((false, .pynone, some ("Tool \x27" ++ toolName ++ "\x27 not found")), st₁)
  | some tool =>
    match (if tool.isBuiltin then .inr (executeBuiltinTool toolName args)
           else if !st₁.mcpAvailable then .inl (false, .pynone, some "MCP client not available")
           else
             match splitServerTool toolName with
             | none => .inl (false, .pynone, some ("Invalid tool name format: " ++ toolName))
             | some (serverName, actualToolName) => .inr (mcpCall serverName actualToolName args) :
           Sum (Bool × PyVal × Option String) (Except String PyVal)) with
    | .inl early => .ok (early, st₁)
    | .inr (.error e) => .error e
    | .inr (.ok result) =>
      if useCache then
        match ToolResultCache.set st₁.cache now toolName args result with
        | .error e => .error e
        | .ok cache₂ => .ok ((true, result, none), { st₁ with cache := cache₂ })
      else .ok ((true, result, none), st₁)

def executeTool (st : ToolManagerState)
    (mcpCall : String → String → PyDict → Except String PyVal)
    (now : Nat) (toolName : String) (args : PyDict) (useCache : Bool) :
    Except String ((Bool × PyVal × Option String) × ToolManagerState) :=
  -- check cache first (outside the try/except)
  let lookup : Except String (Option (Bool × PyVal × Option String) × ToolManagerState) :=
    if useCache then
      match ToolResultCache.get st.cache now toolName args with
      | .error e => .error e
      | .ok (cached, cache₁) =>
        let st₁ := { st with cache := cache₁ }
        if !cached.isNone then .ok (some (true, cached, none), st₁)
        else .ok (none, st₁)
    else .ok (none, st)
  match lookup with
  | .error e => .error e
  | .ok (some hit, st₁) => .ok (hit, st₁)
  | .ok (none, st₁) =>
    -- the try block, then the except handler
    match executeToolTry st₁ mcpCall now toolName args useCache with
    | .ok r => .ok r
    | .error e => .ok ((false, .pynone, some e), st₁)

/-! ## `CognitiveProcessor._assess_complexity` (backend/agents/cognitive.py lines 404–435) -/

/-- The fixed keyword list of `_assess_complexity`. -/
def complexKeywords : List String :=
  ["analyze", "design", "architect", "plan", "multiple", "complex", "integrate"]

/-- The `for keyword in complex_keywords: if keyword in message.lower():
score += 1; break` loop: 1 for the first matching keyword, else 0. -/
def keywordLoopScore (messageLower : String) : List String → Nat
  | [] => 0
  | k :: ks => if strContains messageLower k then 1 else keywordLoopScore messageLower ks

/-- `_assess_complexity(message, context)`; `context` is `Optional[List[...]]`
(`none` for Python `None`); context entries are opaque dicts. -/
def assessComplexity (message : String) (context : Option (List PyDict)) : String :=
  let lengthScore := if message.length > 500 then 2 else if message.length > 200 then 1 else 0
  let contextScore :=
    match context with
    | none => 0
    | some ctx => if ctx.length > 5 then 1 else 0
  let score := lengthScore + contextScore + keywordLoopScore (strLower message) complexKeywords
  if score ≥ 3 then "high" else if score ≥ 1 then "medium" else "low"

/-- The complexity category as the specification words it: score fed through
the `≥3 / ≥1` thresholds, with the keyword contribution phrased as "contains
any of the keywords". -/
def specComplexity (message : String) (context : Option (List PyDict)) : String :=
  let score :=
    (if message.length > 500 then 2 else if message.length > 200 then 1 else 0)
    + (match context with
       | none => 0
       | some ctx => if ctx.length > 5 then 1 else 0)
    + (if complexKeywords.any (fun k => strContains (strLower message) k) then 1 else 0)
  if score ≥ 3 then "high" else if score ≥ 1 then "medium" else "low"

/-! ## `AgentMemory` short-term buffer and context (backend/agents/memory.py) -/

/-- `add_to_short_term`: `deque(maxlen=capacity).append` — the buffer keeps
the last `capacity` items, silently dropping the oldest.  (The timestamp
defaulting touches only the item payload and is elided.) -/
def addToShortTerm (buf : List α) (capacity : Nat) (item : α) : List α :=
  let b := buf ++ [item]
  b.drop (b.length - capacity)

/-- Python `l[i:]` for an `int` index `i` (negative counts from the end). -/
def pyDropSlice (l : List α) (i : Int) : List α :=
  if 0 ≤ i then l.drop i.toNat else l.drop (l.length - (-i).toNat)

/-- `get_short_term_memory(limit)`: `list(deque)` if `limit is None`, else
`list(deque)[-limit:]`. -/
def getShortTermMemory (buf : List α) (limit : Option Int) : List α :=
  match limit with
  | none => buf
  | some n => pyDropSlice buf (-n)

/-! ## `A2AAgentManager.collaborate_agents` (backend/agents/a2a_manager.py lines 238–499)

The LLM-backed single agent turn (`send_message` → request handler →
`LLMAgentExecutor.execute`) is abstracted by an oracle indexed by the round
number and the agent id: it yields the environment-context merges the
executor performs during the turn (`update_environment_context` is the only
way agent context changes — merges never delete keys) and either the response
text or the message of the raised exception.  The prompt built for each turn
(lines 329–418 / 576–665) is consumed only by that abstracted call, so its
text is elided.  Event timestamps, the wall-clock round duration and the
`agent_status` metadata snapshot (and the write-only `"result"` field of
`agent_task_status`) are likewise elided: no claim mentions them and they do
not influence control flow. -/

/-- The `"role"` field of a collaboration-history entry. -/
inductive EventRole where
  | system
  | agent
deriving DecidableEq

/-- One collaboration-history entry: the `role`/`content` fields and the
metadata keys the code writes. -/
structure CollabEvent where
  role : EventRole
  content : String
  agentId : Option String := none
  agentName : Option String := none
  round : Option Nat := none
  completed : Option Bool := none
  error : Option Bool := none
  allCompleted : Option Bool := none
  totalRounds : Option Nat := none
deriving DecidableEq

/-- Outcome of one abstracted agent turn. -/
structure TurnResult where
  ctxMerges : PyDict
  outcome : Except String String

/-- The turn oracle: round index (0-based) and agent id to turn outcome. -/
abbrev Oracle := Nat → String → TurnResult

/-- Did the turn succeed (no exception)? -/
def turnSucceeded (tr : TurnResult) : Bool :=
  match tr.outcome with
  | .ok _ => true
  | .error _ => false

/-- The manager state the collaboration touches: per-agent environment
contexts (`self.agents[id].memory.environment_context`) and the
`agent_metadata[id]["config"].name` table (`names`); an id missing from
`names` falls back to the id itself, as in the source. -/
structure ManagerState where
  agents : List (String × PyDict)
  names : List (String × String)

/-- `agent_name` resolution (lines 319–323). -/
def agentNameOf (m : ManagerState) (agentId : String) : String :=
  (dictFind? m.names agentId).getD agentId

/-- The validation prologue (lines 265–278): empty list, unknown agent id
(first offender, in list order), unknown coordinator; on success the
effective coordinator id.  Line 274 tests `if coordinator_id:` — Python
string *truthiness* — so an explicitly passed **empty** coordinator id
counts as unspecified: the code falls back to the first listed agent
without checking `""` against the registry.  `coordinatorId = none` models
Python `None`; `some c` a passed string `c`. -/
def validateCollab (m : ManagerState) (agentIds : List String)
    (coordinatorId : Option String) : Except String String :=
  match agentIds with
  | [] => .error "No agents specified for collaboration"
  | first :: _ =>
    match agentIds.find? (fun a => !(dictMem m.agents a)) with
    | some a => .error ("Agent " ++ a ++ " not found")
    | none =>
      match coordinatorId with
      | some c =>
        if c != "" then
          if dictMem m.agents c then .ok c
          else .error ("Coordinator agent " ++ c ++ " not found")
        else .ok first
      | none => .ok first

/-- The collaboration-context object merged into every participant at
initialization (lines 294–300). -/
def collabContext (agentIds : List String) (coordinatorId task : String) : PyDict :=
  [("in_collaboration", .bool true),
   ("total_agents", .int agentIds.length),
   ("agent_ids", .list (agentIds.map .str)),
   ("coordinator_id", .str coordinatorId),
   ("task", .str task)]

/-- `for agent_id in ids: executor = agents.get(agent_id); if executor:
executor.memory.update_environment_context(u)` (lines 302–305, 486–489). -/
def applyCtxToAgents (agents : List (String × PyDict)) (ids : List String)
    (u : PyDict) : List (String × PyDict) :=
  ids.foldl step agents
where step (acc : List (String × PyDict)) (a : String) : List (String × PyDict) :=
  match dictFind? acc a with
  | some ctx => dictInsert acc a (dictUpdate ctx u)
  | none => acc

/-- The initial system event (lines 286–291). -/
def startEvent (task : String) : CollabEvent :=
  { role := .system, content := "Starting collaboration on task: " ++ task }

/-- The per-turn agent event: success (lines 432–442) or error (lines
448–459); `round` is 1-based. -/
def agentTurnEvent (agentName agentId : String) (round : Nat)
    (outcome : Except String String) : CollabEvent :=
  match outcome with
  | .ok text =>
    { role := .agent, content := "[" ++ agentName ++ "]: " ++ text,
      agentId := some agentId, agentName := some agentName,
      round := some round, completed := some true }
  | .error e =>
    { role := .agent, content := "[" ++ agentName ++ "]: Error - " ++ e,
      agentId := some agentId, agentName := some agentName,
      round := some round, error := some true, completed := some false }

/-- The per-round system summary event (lines 467–477); the wall-clock
duration in the content and metadata is elided. -/
def roundSummaryEvent (round : Nat) (allCompleted : Bool) : CollabEvent :=
  { role := .system,
    content := "Round " ++ toString round ++ " completed. All agents responded: "
      ++ (if allCompleted then "True" else "False"),
    round := some round, allCompleted := some allCompleted }

/-- The final system event (lines 492–497). -/
def finalEvent (maxRounds : Nat) : CollabEvent :=
  { role := .system,
    content := "Collaboration completed after " ++ toString maxRounds ++ " rounds",
    totalRounds := some maxRounds }

/-- `agent_task_status`: id → `["completed"]` flag (the write-only
`["result"]` field is elided). -/
abbrev Statuses := List (String × Bool)

/-- `{agent_id: {"completed": False, ...} for agent_id in agent_ids}`
(line 283). -/
def initStatuses (agentIds : List String) : Statuses :=
  agentIds.foldl (fun acc a => dictInsert acc a false) []

/-- The mutable state threaded through the collaboration loop. -/
structure CollabState where
  agents : List (String × PyDict)
  statuses : Statuses
  history : List CollabEvent

/-- One agent turn of the buffered variant (lines 318–460): dispatch through
the oracle, merge the context writes of the executor, then on success append a
completed agent event and mark the status true; on exception append an error
agent event and mark the status false. -/
def processTurn (names : List (String × String)) (oracle : Oracle) (roundNum : Nat)
    (st : CollabState) (agentId : String) : CollabState :=
  let agentName := (dictFind? names agentId).getD agentId
  let tr := oracle roundNum agentId
  let agents' :=
    match dictFind? st.agents agentId with
    | some ctx => dictInsert st.agents agentId (dictUpdate ctx tr.ctxMerges)
    | none => st.agents
  { agents := agents',
    statuses := dictInsert st.statuses agentId (turnSucceeded tr),
    history := st.history ++ [agentTurnEvent agentName agentId (roundNum + 1) tr.outcome] }

/-- One full round of the buffered variant (lines 311–483): every agent in
order, the round summary with `all_completed = all(status["completed"])`,
then the reset of every completion flag. -/
def processRound (names : List (String × String)) (oracle : Oracle)
    (agentIds : List String) (roundNum : Nat) (st : CollabState) : CollabState :=
  let st₁ := agentIds.foldl (processTurn names oracle roundNum) st
  let allCompleted := st₁.statuses.all (fun p => p.2)
  let st₂ := { st₁ with history := st₁.history ++ [roundSummaryEvent (roundNum + 1) allCompleted] }
  { st₂ with statuses := agentIds.foldl (fun acc a => dictInsert acc a false) st₂.statuses }

/-- `for round_num in range(max_rounds)`: `n` rounds remaining, current round
index `r`. -/
def runRounds (names : List (String × String)) (oracle : Oracle)
    (agentIds : List String) : Nat → Nat → CollabState → CollabState
  | 0, _, st => st
  | n + 1, r, st => runRounds names oracle agentIds n (r + 1) (processRound names oracle agentIds r st)

/-- The collaboration state after validation, initialization and all
`max_rounds` rounds, before finalization. -/
def collabRoundsState (m : ManagerState) (agentIds : List String) (task : String)
    (coordinatorId : String) (maxRounds : Nat) (oracle : Oracle) : CollabState :=
  runRounds m.names oracle agentIds maxRounds 0
    { agents := applyCtxToAgents m.agents agentIds (collabContext agentIds coordinatorId task),
      statuses := initStatuses agentIds,
      history := [startEvent task] }

/-- `collaborate_agents(agent_ids, task, coordinator_id, max_rounds)`.

Returns the collaboration history (or the `ValueError` message when
validation fails) together with the manager state, whose in-place mutation
the Python method performs; on the error path nothing has been mutated yet. -/
def collaborateAgents (m : ManagerState) (agentIds : List String) (task : String)
    (coordinatorId : Option String) (maxRounds : Nat) (oracle : Oracle) :
    Except String (List CollabEvent) × ManagerState :=
  match validateCollab m agentIds coordinatorId with
  | .error e => (.error e, m)
  | .ok coordId =>
    let stN := collabRoundsState m agentIds task coordId maxRounds oracle
    let agentsF := applyCtxToAgents stN.agents agentIds [("in_collaboration", .bool false)]
    (.ok (stN.history ++ [finalEvent maxRounds]), { m with agents := agentsF })

/-! ### The streaming variant (lines 501–750)

`collaborate_agents_stream` duplicates the buffered loop body verbatim,
yielding each entry as it is appended to `stream_history`; the definitions
below mirror that duplicated code.  The only statements the async generator raises from are
the validation `ValueError`s, which fire on first iteration before any event
is yielded, so the outcome is either the full yielded sequence or an error
with nothing yielded. -/

/-- One agent turn of the streaming variant (lines 565–711). -/
def processTurnStream (names : List (String × String)) (oracle : Oracle) (roundNum : Nat)
    (st : CollabState) (agentId : String) : CollabState :=
  let agentName := (dictFind? names agentId).getD agentId
  let tr := oracle roundNum agentId
  let agents' :=
    match dictFind? st.agents agentId with
    | some ctx => dictInsert st.agents agentId (dictUpdate ctx tr.ctxMerges)
    | none => st.agents
  { agents := agents',
    statuses := dictInsert st.statuses agentId (turnSucceeded tr),
    history := st.history ++ [agentTurnEvent agentName agentId (roundNum + 1) tr.outcome] }

/-- One full round of the streaming variant (lines 558–735). -/
def processRoundStream (names : List (String × String)) (oracle : Oracle)
    (agentIds : List String) (roundNum : Nat) (st : CollabState) : CollabState :=
  let st₁ := agentIds.foldl (processTurnStream names oracle roundNum) st
  let allCompleted := st₁.statuses.all (fun p => p.2)
  let st₂ := { st₁ with history := st₁.history ++ [roundSummaryEvent (roundNum + 1) allCompleted] }
  { st₂ with statuses := agentIds.foldl (fun acc a => dictInsert acc a false) st₂.statuses }

/-- The streaming round loop. -/
def runRoundsStream (names : List (String × String)) (oracle : Oracle)
    (agentIds : List String) : Nat → Nat → CollabState → CollabState
  | 0, _, st => st
  | n + 1, r, st =>
    runRoundsStream names oracle agentIds n (r + 1) (processRoundStream names oracle agentIds r st)

/-- `collaborate_agents_stream(...)`: the sequence of yielded events (or the
validation error, raised before anything is yielded), with the manager
state. -/
def collaborateAgentsStream (m : ManagerState) (agentIds : List String) (task : String)
    (coordinatorId : Option String) (maxRounds : Nat) (oracle : Oracle) :
    Except String (List CollabEvent) × ManagerState :=
  match validateCollab m agentIds coordinatorId with
  | .error e => (.error e, m)
  | .ok coordId =>
    let stN := runRoundsStream m.names oracle agentIds maxRounds 0
      { agents := applyCtxToAgents m.agents agentIds (collabContext agentIds coordId task),
        statuses := initStatuses agentIds,
        history := [startEvent task] }
    let agentsF := applyCtxToAgents stN.agents agentIds [("in_collaboration", .bool false)]
    (.ok (stN.history ++ [finalEvent maxRounds]), { m with agents := agentsF })

/-! ### The SSE wrapper (backend/api/agents_a2a.py lines 143–202) -/

/-- One Server-Sent Event emitted by `event_generator`. -/
inductive SSEMessage where
  | message (e : CollabEvent)
  | complete
  | errorMarker (msg : String)
deriving DecidableEq

/-- `collaborate_stream.event_generator`: `run_collaboration` forwards every
yielded event into the queue as a `message`; when the generator raises it
enqueues `{"error": str(e)}` and the consumer emits the error marker and
stops; otherwise the `None` sentinel yields the `complete` marker.  Manager
events carry their error flag inside `metadata`, not as a top-level
`"error"` key, so they always pass the consumer-side `"error" in message` test
as plain messages. -/
def eventGenerator (streamOutcome : Except String (List CollabEvent)) : List SSEMessage :=
  match streamOutcome with
  | .ok evs => evs.map .message ++ [.complete]
  | .error e => [.errorMarker e]

/-! ### Specification-side event shape

The shape `collaborate_agents` is claimed to produce: one start event, then
per round the agent events in list order followed by the round summary, then
the final event.  The completion flags are threaded exactly as the code
threads `agent_task_status` (per-turn overwrite, `all(...)` at the summary,
reset after). -/

/-- The statuses after the turns of round `r`. -/
def turnStatuses (oracle : Oracle) (r : Nat) (sts : Statuses) (ids : List String) : Statuses :=
  ids.foldl (fun acc a => dictInsert acc a (turnSucceeded (oracle r a))) sts

/-- The status reset at the end of a round. -/
def resetStatuses (sts : Statuses) (ids : List String) : Statuses :=
  ids.foldl (fun acc a => dictInsert acc a false) sts

/-- The agent events of round `r` (0-based), one per configured agent in
order. -/
def turnEventsOfRound (names : List (String × String)) (oracle : Oracle)
    (agentIds : List String) (r : Nat) : List CollabEvent :=
  agentIds.map (fun a => agentTurnEvent ((dictFind? names a).getD a) a (r + 1) (oracle r a).outcome)

/-- The events of `n` successive rounds starting at round index `r` with
incoming statuses `sts`: per round, the agent events in order, then the
round summary. -/
def roundsEventsFrom (names : List (String × String)) (oracle : Oracle)
    (agentIds : List String) : Nat → Nat → Statuses → List CollabEvent
  | 0, _, _ => []
  | n + 1, r, sts =>
    let sts₁ := turnStatuses oracle r sts agentIds
    turnEventsOfRound names oracle agentIds r
      ++ [roundSummaryEvent (r + 1) (sts₁.all (fun p => p.2))]
      ++ roundsEventsFrom names oracle agentIds n (r + 1) (resetStatuses sts₁ agentIds)

/-- The full claimed event timeline. -/
def specCollabHistory (names : List (String × String)) (oracle : Oracle)
    (agentIds : List String) (task : String) (maxRounds : Nat) : List CollabEvent :=
  startEvent task
    :: (roundsEventsFrom names oracle agentIds maxRounds 0 (initStatuses agentIds)
        ++ [finalEvent maxRounds])

/-- Recogniser for round-summary events (system events carrying a round
number). -/
def isRoundSummary (e : CollabEvent) : Bool :=
  (match e.role with | .system => true | .agent => false) && e.round.isSome

/-! ## Auxiliary definitions for the statements -/

/-- Decidable equality for `Except` results (not provided by core). -/
instance exceptDecEq {ε α : Type} [DecidableEq ε] [DecidableEq α] :
    DecidableEq (Except ε α) := fun x y =>
  match x, y with
  | .ok a, .ok b =>
    if h : a = b then .isTrue (by rw [h]) else .isFalse (fun hc => h (Except.ok.inj hc))
  | .error a, .error b =>
    if h : a = b then .isTrue (by rw [h]) else .isFalse (fun hc => h (Except.error.inj hc))
  | .ok _, .error _ => .isFalse (fun hc => Except.noConfusion hc)
  | .error _, .ok _ => .isFalse (fun hc => Except.noConfusion hc)

/-- Did the call return normally (no exception)? -/
def exceptIsOk : Except ε α → Bool
  | .ok _ => true
  | .error _ => false

/-- A sequence of `ToolResultCache.set` calls, each item being
`(instant, tool_name, arguments, result)`; stops at the first exception. -/
def setAll (c : CacheState) : List (Nat × String × PyDict × PyVal) → Except String CacheState
  | [] => .ok c
  | it :: rest =>
    match ToolResultCache.set c it.1 it.2.1 it.2.2.1 it.2.2.2 with
    | .error e => .error e
    | .ok c₁ => setAll c₁ rest

/-- The cache key of a `setAll` item. -/
def itemKey (it : Nat × String × PyDict × PyVal) : Option String :=
  ToolResultCache.generateCacheKey it.2.1 it.2.2.1

/-- The cache entry a `setAll` item produces (meaningful when its key
serializes). -/
def entryOf (it : Nat × String × PyDict × PyVal) : String × CacheEntry :=
  ((itemKey it).getD "", ⟨it.1, it.2.2.2⟩)

/-! ## Dictionary lemmas -/

theorem dictFind?_nil (k : String) : dictFind? ([] : List (String × α)) k = none := rfl

theorem dictFind?_cons (p : String × α) (d : List (String × α)) (k : String) :
    dictFind? (p :: d) k = if p.1 == k then some p.2 else dictFind? d k := by
  by_cases h : p.1 == k <;> simp [dictFind?, List.find?, h]

theorem dictMem_cons (p : String × α) (d : List (String × α)) (k : String) :
    dictMem (p :: d) k = ((p.1 == k) || dictMem d k) := by
  simp [dictMem]

theorem dictMem_eq_isSome (d : List (String × α)) (k : String) :
    dictMem d k = (dictFind? d k).isSome := by
  induction d with
  | nil => rfl
  | cons p ps ih =>
    rw [dictMem_cons, dictFind?_cons]
    by_cases h : p.1 == k <;> simp [h, ih]

theorem dictMem_eq_keys_mem (d : List (String × α)) (k : String) :
    dictMem d k = true ↔ k ∈ d.map Prod.fst := by
  rw [dictMem, List.any_eq_true]
  simp only [beq_iff_eq, List.mem_map]

theorem dictFind?_append (d₁ d₂ : List (String × α)) (k : String) :
    dictFind? (d₁ ++ d₂) k =
      match dictFind? d₁ k with
      | some v => some v
      | none => dictFind? d₂ k := by
  induction d₁ with
  | nil => simp [dictFind?_nil]
  | cons p ps ih =>
    rw [List.cons_append, dictFind?_cons, dictFind?_cons]
    by_cases h : p.1 == k <;> simp [h, ih]

theorem find?_map_replace_eq (d : List (String × α)) (k : String) (v : α)
    (h : dictMem d k = true) :
    dictFind? (d.map (fun p => if p.1 == k then (k, v) else p)) k = some v := by
  induction d with
  | nil => simp [dictMem] at h
  | cons p ps ih =>
    rw [dictMem_cons] at h
    by_cases hp : p.1 = k
    · simp [dictFind?_cons, hp]
    · have hps : dictMem ps k = true := by simpa [hp] using h
      simpa [dictFind?_cons, hp] using ih hps

theorem find?_map_replace_ne (d : List (String × α)) (k : String) (v : α) (k' : String)
    (h : k' ≠ k) :
    dictFind? (d.map (fun p => if p.1 == k then (k, v) else p)) k' = dictFind? d k' := by
  have hkk' : ¬k = k' := fun hc => h hc.symm
  induction d with
  | nil => rfl
  | cons p ps ih =>
    by_cases hp : p.1 = k
    · simpa [dictFind?_cons, hp, hkk'] using ih
    · by_cases hk : p.1 = k'
      · simp [dictFind?_cons, hp, hk, h]
      · simpa [dictFind?_cons, hp, hk] using ih

theorem dictFind?_insert (d : List (String × α)) (k : String) (v : α) (k' : String) :
    dictFind? (dictInsert d k v) k' = if k' = k then some v else dictFind? d k' := by
  unfold dictInsert
  by_cases hmem : dictMem d k
  · rw [if_pos hmem]
    by_cases hk : k' = k
    · subst hk
      rw [if_pos rfl]
      exact find?_map_replace_eq d k' v hmem
    · rw [if_neg hk]
      exact find?_map_replace_ne d k v k' hk
  · rw [if_neg hmem, dictFind?_append]
    by_cases hk : k' = k
    · subst hk
      have hnone : dictFind? d k' = none := by
        cases hfd : dictFind? d k' with
        | none => rfl
        | some w =>
          have hiff := dictMem_eq_isSome d k'
          rw [hfd] at hiff
          simp at hiff
          exact absurd hiff hmem
      rw [hnone, if_pos rfl]
      simp [dictFind?_cons]
    · rw [if_neg hk]
      have hone : dictFind? [(k, v)] k' = none := by
        have hkk : ¬k = k' := fun hc => hk hc.symm
        simp [dictFind?_cons, hkk, dictFind?_nil]
      rw [hone]
      cases dictFind? d k' <;> simp

theorem dictFind?_insert_self (d : List (String × α)) (k : String) (v : α) :
    dictFind? (dictInsert d k v) k = some v := by
  simp [dictFind?_insert]

theorem dictFind?_insert_ne (d : List (String × α)) (k : String) (v : α) (k' : String)
    (h : k' ≠ k) : dictFind? (dictInsert d k v) k' = dictFind? d k' := by
  simp [dictFind?_insert, h]

theorem dictFind?_erase_self (d : List (String × α)) (k : String) :
    dictFind? (dictErase d k) k = none := by
  induction d with
  | nil => rfl
  | cons p ps ih =>
    by_cases hp : p.1 = k
    · simpa [dictErase, List.filter_cons, hp] using ih
    · simpa [dictErase, List.filter_cons, hp, dictFind?_cons] using ih

theorem dictFind?_erase_ne (d : List (String × α)) (k k' : String) (h : k' ≠ k) :
    dictFind? (dictErase d k) k' = dictFind? d k' := by
  have hkk : ¬k = k' := fun hc => h hc.symm
  induction d with
  | nil => rfl
  | cons p ps ih =>
    by_cases hp : p.1 = k
    · simpa [dictErase, List.filter_cons, hp, hkk, dictFind?_cons] using ih
    · by_cases hk : p.1 = k'
      · simp [dictErase, List.filter_cons, hp, dictFind?_cons, hk, h]
      · simpa [dictErase, List.filter_cons, hp, dictFind?_cons, hk] using ih

theorem dictErase_not_mem (d : List (String × α)) (k : String)
    (h : dictMem d k = false) : dictErase d k = d := by
  induction d with
  | nil => rfl
  | cons p ps ih =>
    rw [dictMem_cons] at h
    simp only [Bool.or_eq_false_iff] at h
    have hp : ¬p.1 = k := by
      have := h.1
      simpa using this
    have hps := ih h.2
    simp only [dictErase, List.filter_cons] at hps ⊢
    simp [hp, hps]

theorem dictMem_erase_ne (d : List (String × α)) (k k' : String) (h : k' ≠ k) :
    dictMem (dictErase d k) k' = dictMem d k' := by
  rw [dictMem_eq_isSome, dictMem_eq_isSome, dictFind?_erase_ne d k k' h]

theorem length_dictInsert (d : List (String × α)) (k : String) (v : α) :
    (dictInsert d k v).length = if dictMem d k then d.length else d.length + 1 := by
  unfold dictInsert
  by_cases h : dictMem d k <;> simp [h]

theorem length_dictErase_nodup (d : List (String × α)) (k : String)
    (hnd : (d.map Prod.fst).Nodup) (h : dictMem d k = true) :
    (dictErase d k).length + 1 = d.length := by
  induction d with
  | nil => simp [dictMem] at h
  | cons p ps ih =>
    rw [List.map_cons, List.nodup_cons] at hnd
    by_cases hp : p.1 = k
    · have hmem : dictMem ps k = false := by
        rw [← hp, Bool.eq_false_iff]
        intro hc
        exact hnd.1 ((dictMem_eq_keys_mem ps p.1).mp hc)
      have hsame := dictErase_not_mem ps k hmem
      simp only [dictErase, List.filter_cons] at hsame ⊢
      simp [hp, hsame]
    · rw [dictMem_cons] at h
      have hps : dictMem ps k = true := by simpa [hp] using h
      have := ih hnd.2 hps
      simp only [dictErase, List.filter_cons] at this ⊢
      simp [hp, this]

theorem dictUpdate_nil (d : List (String × α)) : dictUpdate d [] = d := rfl

theorem dictUpdate_cons (d : List (String × α)) (p : String × α) (u : List (String × α)) :
    dictUpdate d (p :: u) = dictUpdate (dictInsert d p.1 p.2) u := rfl

theorem dictUpdate_single (d : List (String × α)) (k : String) (v : α) :
    dictUpdate d [(k, v)] = dictInsert d k v := rfl

theorem isSome_dictFind?_insert (d : List (String × α)) (k : String) (v : α) (k' : String)
    (h : (dictFind? d k').isSome) : (dictFind? (dictInsert d k v) k').isSome := by
  rw [dictFind?_insert]
  by_cases hk : k' = k <;> simp [hk, h]

theorem isSome_dictFind?_update (d u : List (String × α)) (k : String)
    (h : (dictFind? d k).isSome) : (dictFind? (dictUpdate d u) k).isSome := by
  induction u generalizing d with
  | nil => exact h
  | cons p rest ih => exact ih _ (isSome_dictFind?_insert d p.1 p.2 k h)

theorem isSome_dictFind?_update_key (d u : List (String × α)) (k : String)
    (h : k ∈ u.map Prod.fst) : (dictFind? (dictUpdate d u) k).isSome := by
  induction u generalizing d with
  | nil => simp at h
  | cons p rest ih =>
    rw [List.map_cons, List.mem_cons] at h
    rcases h with h | h
    · rw [dictUpdate_cons]
      apply isSome_dictFind?_update
      rw [h, dictFind?_insert_self]
      rfl
    · exact ih _ h

theorem dictFind?_update_frame (d u : List (String × α)) (k : String)
    (h : ∀ p ∈ u, p.1 ≠ k) : dictFind? (dictUpdate d u) k = dictFind? d k := by
  induction u generalizing d with
  | nil => rfl
  | cons p rest ih =>
    rw [dictUpdate_cons, ih _ (fun q hq => h q (List.mem_cons_of_mem p hq)),
      dictFind?_insert_ne d p.1 p.2 k (Ne.symm (h p (List.mem_cons_self p rest)))]

/-! ## Cache lemmas -/

theorem oldestKey_go_min (rest : List (String × CacheEntry)) :
    ∀ (best : String) (bestTs : Nat), (∀ p ∈ rest, bestTs < p.2.timestamp) →
    ToolResultCache.oldestKey.go best bestTs rest = best := by
  induction rest with
  | nil => intro best bestTs _; rfl
  | cons q r ih =>
    intro best bestTs h
    obtain ⟨k, e⟩ := q
    rw [ToolResultCache.oldestKey.go]
    rw [if_neg (by
      have hke := h (k, e) (List.mem_cons_self _ _)
      simp only at hke
      omega)]
    exact ih best bestTs (fun p hp => h p (List.mem_cons_of_mem _ hp))

theorem oldestKey_cons_min (k : String) (e : CacheEntry) (rest : List (String × CacheEntry))
    (h : ∀ p ∈ rest, e.timestamp < p.2.timestamp) :
    ToolResultCache.oldestKey ((k, e) :: rest) = some k := by
  rw [ToolResultCache.oldestKey, oldestKey_go_min rest k e.timestamp h]

theorem oldestKey_isSome (d : List (String × CacheEntry)) (h : d ≠ []) :
    (ToolResultCache.oldestKey d).isSome := by
  cases d with
  | nil => exact absurd rfl h
  | cons p rest => obtain ⟨k, e⟩ := p; rfl

theorem oldestKey_go_mem (rest : List (String × CacheEntry)) :
    ∀ (best : String) (bestTs : Nat),
    ToolResultCache.oldestKey.go best bestTs rest = best ∨
      ∃ p ∈ rest, ToolResultCache.oldestKey.go best bestTs rest = p.1 := by
  induction rest with
  | nil => intro best bestTs; exact Or.inl rfl
  | cons q r ih =>
    intro best bestTs
    obtain ⟨k, e⟩ := q
    rw [ToolResultCache.oldestKey.go]
    by_cases hc : e.timestamp < bestTs
    · rw [if_pos hc]
      rcases ih k e.timestamp with h | ⟨p, hp, he⟩
      · exact Or.inr ⟨(k, e), List.mem_cons_self _ _, h⟩
      · exact Or.inr ⟨p, List.mem_cons_of_mem _ hp, he⟩
    · rw [if_neg hc]
      rcases ih best bestTs with h | ⟨p, hp, he⟩
      · exact Or.inl h
      · exact Or.inr ⟨p, List.mem_cons_of_mem _ hp, he⟩

theorem oldestKey_mem (d : List (String × CacheEntry)) (x : String)
    (h : ToolResultCache.oldestKey d = some x) : dictMem d x = true := by
  cases d with
  | nil => exact absurd h (by simp [ToolResultCache.oldestKey])
  | cons p rest =>
    obtain ⟨k, e⟩ := p
    rw [ToolResultCache.oldestKey] at h
    have hx := Option.some.inj h
    rw [dictMem_eq_keys_mem]
    rcases oldestKey_go_mem rest k e.timestamp with hg | ⟨q, hq, he⟩
    · rw [hg] at hx
      simp [← hx]
    · have hqx : x = q.1 := by rw [← hx, he]
      rw [List.map_cons, hqx]
      exact List.mem_cons_of_mem _ (List.mem_map_of_mem Prod.fst hq)

/-- The shape of a successful `ToolResultCache.set`: the new binding is
inserted after the conditional eviction of the globally-oldest entry. -/
theorem cacheSet_ok (c : CacheState) (now : Nat) (toolName : String) (args : PyDict)
    (result : PyVal) (k : String)
    (hk : ToolResultCache.generateCacheKey toolName args = some k)
    (hsz : 0 < c.maxSize) :
    ∃ entries₁, ToolResultCache.set c now toolName args result =
        .ok { c with entries := dictInsert entries₁ k ⟨now, result⟩ } ∧
      (c.entries.length < c.maxSize → entries₁ = c.entries) ∧
      (c.maxSize ≤ c.entries.length →
        ∃ kOld, ToolResultCache.oldestKey c.entries = some kOld ∧
          entries₁ = dictErase c.entries kOld) := by
  by_cases hlen : c.entries.length ≥ c.maxSize
  · have hne : c.entries ≠ [] := by
      intro hc
      rw [hc] at hlen
      simp at hlen
      omega
    obtain ⟨kOld, hOld⟩ := Option.isSome_iff_exists.mp (oldestKey_isSome c.entries hne)
    refine ⟨dictErase c.entries kOld, ?_, fun hlt => absurd hlt (by omega), fun _ => ⟨kOld, hOld, rfl⟩⟩
    simp [ToolResultCache.set, hlen, hOld, hk]
  · refine ⟨c.entries, ?_, fun _ => rfl, fun hge => absurd hge (by omega)⟩
    simp [ToolResultCache.set, hlen, hk]

/-- C6: after `set(tool, args, result)` at `t₀`, a `get(tool, args)` within
the TTL returns exactly `result` with the cache unchanged, and a `get` more
than `ttl_seconds` later returns the miss value with the entry removed.
Quantified over serializable argument dictionaries (`json.dumps` succeeds,
yielding the key `k`) and caches with positive capacity. -/
theorem cache_roundtrip_ttl (c : CacheState) (t₀ t₁ : Nat) (toolName : String)
    (args : PyDict) (result : PyVal) (k : String)
    (hk : ToolResultCache.generateCacheKey toolName args = some k)
    (hsz : 0 < c.maxSize) :
    ∃ c₁, ToolResultCache.set c t₀ toolName args result = .ok c₁ ∧
      (t₁ - t₀ ≤ c.ttl → ToolResultCache.get c₁ t₁ toolName args = .ok (result, c₁)) ∧
      (c.ttl < t₁ - t₀ → ∃ c₂,
        ToolResultCache.get c₁ t₁ toolName args = .ok (.pynone, c₂) ∧
        dictFind? c₂.entries k = none) := by
  obtain ⟨entries₁, hset, -, -⟩ := cacheSet_ok c t₀ toolName args result k hk hsz
  refine ⟨_, hset, ?_, ?_⟩
  · intro hle
    simp only [ToolResultCache.get, hk, dictFind?_insert_self]
    rw [if_neg (by simp; omega)]
  · intro hgt
    simp only [ToolResultCache.get, hk, dictFind?_insert_self]
    rw [if_pos (by simp; omega)]
    refine ⟨_, rfl, ?_⟩
    exact dictFind?_erase_self _ k

/-- C6 witness: a concrete round trip through a fresh default cache
(`ttl=300`): `set` at instant 10, hit at instant 10, expiry at instant 311. -/
theorem cache_roundtrip_ttl_witness :
    ∃ c₁ c₂, ToolResultCache.set ⟨300, 100, []⟩ 10 "t" [("a", .int 1)] (.str "R") = .ok c₁ ∧
      ToolResultCache.get c₁ 10 "t" [("a", .int 1)] = .ok (.str "R", c₁) ∧
      ToolResultCache.get c₁ 311 "t" [("a", .int 1)] = .ok (.pynone, c₂) ∧
      dictFind? c₂.entries "t:\x7b\"a\": 1\x7d" = none := by
  obtain ⟨c₁, hset, hhit, hexp⟩ :=
    cache_roundtrip_ttl ⟨300, 100, []⟩ 10 311 "t" [("a", .int 1)] (.str "R")
      "t:\x7b\"a\": 1\x7d" (by rfl) (by decide)
  obtain ⟨c₂, hget, hgone⟩ := hexp (by decide)
  obtain ⟨c₁', hset', hhit', -⟩ :=
    cache_roundtrip_ttl ⟨300, 100, []⟩ 10 10 "t" [("a", .int 1)] (.str "R")
      "t:\x7b\"a\": 1\x7d" (by rfl) (by decide)
  have hc : c₁' = c₁ := by
    rw [hset] at hset'
    exact Except.ok.inj hset'.symm
  exact ⟨c₁, c₂, hset, by rw [← hc]; exact hhit' (by decide), hget, hgone⟩

/-- C9: `set` on a cache already holding `max_size` entries whose key `k` is
already present still evicts the globally-oldest entry first — when that
oldest entry has a different key `kOld`, the unrelated entry is deleted, the
binding of `k` is overwritten in place, and the cache ends at
`max_size - 1` entries. -/
theorem cache_set_at_capacity_overwrite_evicts (c : CacheState) (now : Nat)
    (toolName : String) (args : PyDict) (result : PyVal) (k kOld : String)
    (hk : ToolResultCache.generateCacheKey toolName args = some k)
    (hfull : c.entries.length = c.maxSize)
    (hmem : dictMem c.entries k = true)
    (hold : ToolResultCache.oldestKey c.entries = some kOld)
    (hne : kOld ≠ k)
    (hnd : (c.entries.map Prod.fst).Nodup) :
    ∃ c', ToolResultCache.set c now toolName args result = .ok c' ∧
      c'.entries.length + 1 = c.maxSize ∧
      dictFind? c'.entries kOld = none ∧
      dictFind? c'.entries k = some ⟨now, result⟩ := by
  have hnn : c.entries ≠ [] := by
    intro hc
    rw [hc] at hmem
    simp [dictMem] at hmem
  have hsz : 0 < c.maxSize := by
    rw [← hfull]
    cases hcc : c.entries with
    | nil => exact absurd hcc hnn
    | cons p r => simp
  obtain ⟨entries₁, hset, -, hevict⟩ := cacheSet_ok c now toolName args result k hk hsz
  obtain ⟨kOld', hold', he⟩ := hevict (by omega)
  rw [hold] at hold'
  have hkk : kOld' = kOld := (Option.some.inj hold').symm
  rw [hkk] at he
  refine ⟨_, hset, ?_, ?_, dictFind?_insert_self entries₁ k (⟨now, result⟩ : CacheEntry)⟩
  · have hmemold : dictMem c.entries kOld = true := oldestKey_mem c.entries kOld hold
    have hlen₁ : entries₁.length + 1 = c.entries.length := by
      rw [he]
      exact length_dictErase_nodup c.entries kOld hnd hmemold
    have hmemk₁ : dictMem entries₁ k = true := by
      rw [he, dictMem_erase_ne c.entries kOld k (Ne.symm hne)]
      exact hmem
    have := length_dictInsert entries₁ k (⟨now, result⟩ : CacheEntry)
    rw [if_pos hmemk₁] at this
    simp only [this]
    omega
  · rw [dictFind?_insert_ne entries₁ k ⟨now, result⟩ kOld hne, he]
    exact dictFind?_erase_self c.entries kOld

/-- C9 witness: a two-entry cache at capacity 2; overwriting the newer key
evicts the unrelated older entry and leaves a single entry. -/
theorem cache_set_at_capacity_overwrite_evicts_witness :
    ∃ c', ToolResultCache.set
        ⟨300, 2, [("other:\x7b\x7d", ⟨0, .str "r1"⟩), ("t:\x7b\x7d", ⟨1, .str "r2"⟩)]⟩
        5 "t" [] (.str "r3") = .ok c' ∧
      c'.entries.length + 1 = 2 ∧
      dictFind? c'.entries "other:\x7b\x7d" = none ∧
      dictFind? c'.entries "t:\x7b\x7d" = some ⟨5, .str "r3"⟩ := by
  exact cache_set_at_capacity_overwrite_evicts
    ⟨300, 2, [("other:\x7b\x7d", ⟨0, .str "r1"⟩), ("t:\x7b\x7d", ⟨1, .str "r2"⟩)]⟩
    5 "t" [] (.str "r3") "t:\x7b\x7d" "other:\x7b\x7d"
    (by rfl) (by rfl) (by rfl) (by rfl) (by decide) (by decide)

theorem dictInsert_not_mem (d : List (String × α)) (k : String) (v : α)
    (h : dictMem d k = false) : dictInsert d k v = d ++ [(k, v)] := by
  unfold dictInsert
  rw [if_neg (by simp [h])]

theorem length_dictErase_lt (d : List (String × α)) (k : String)
    (h : dictMem d k = true) : (dictErase d k).length < d.length := by
  induction d with
  | nil => simp [dictMem] at h
  | cons p ps ih =>
    by_cases hp : p.1 = k
    · simp only [dictErase, List.filter_cons]
      rw [show ((p.1 != k) = false) by simp [hp]]
      have := List.length_filter_le (fun p => p.1 != k) ps
      simp only [dictErase] at *
      simp
      omega
    · rw [dictMem_cons] at h
      have hps : dictMem ps k = true := by simpa [hp] using h
      have := ih hps
      simp only [dictErase, List.filter_cons] at this ⊢
      rw [show ((p.1 != k) = true) by simp [hp]]
      simpa using this

/-- One successful `set` keeps the entry count within a positive capacity and
leaves the configuration untouched. -/
theorem set_bound (c : CacheState) (now : Nat) (t : String) (a : PyDict) (r : PyVal)
    (c₁ : CacheState) (hsz : 0 < c.maxSize) (hlen : c.entries.length ≤ c.maxSize)
    (hset : ToolResultCache.set c now t a r = .ok c₁) :
    c₁.entries.length ≤ c.maxSize ∧ c₁.maxSize = c.maxSize ∧ c₁.ttl = c.ttl := by
  cases hk : ToolResultCache.generateCacheKey t a with
  | none =>
    exfalso
    by_cases hge : c.entries.length ≥ c.maxSize
    · have hne : c.entries ≠ [] := by
        intro hc
        rw [hc] at hge
        simp at hge
        omega
      obtain ⟨kOld, hOld⟩ := Option.isSome_iff_exists.mp (oldestKey_isSome c.entries hne)
      simp [ToolResultCache.set, hge, hOld, hk] at hset
    · simp [ToolResultCache.set, hge, hk] at hset
  | some k =>
    obtain ⟨entries₁, hset', hlt, hge⟩ := cacheSet_ok c now t a r k hk hsz
    rw [hset'] at hset
    have hc₁ : c₁ = { c with entries := dictInsert entries₁ k ⟨now, r⟩ } :=
      (Except.ok.inj hset).symm
    subst hc₁
    refine ⟨?_, rfl, rfl⟩
    by_cases hcap : c.entries.length < c.maxSize
    · rw [hlt hcap]
      have := length_dictInsert c.entries k (⟨now, r⟩ : CacheEntry)
      by_cases hm : dictMem c.entries k <;> simp [hm] at this <;> simp [this] <;> omega
    · obtain ⟨kOld, hOld, he⟩ := hge (by omega)
      have hmemold : dictMem c.entries kOld = true := oldestKey_mem c.entries kOld hOld
      have herase : entries₁.length < c.entries.length := by
        rw [he]
        exact length_dictErase_lt c.entries kOld hmemold
      have := length_dictInsert entries₁ k (⟨now, r⟩ : CacheEntry)
      by_cases hm : dictMem entries₁ k <;> simp [hm] at this <;> simp [this] <;> omega

theorem setAll_append (xs ys : List (Nat × String × PyDict × PyVal)) (c : CacheState) :
    setAll c (xs ++ ys) =
      match setAll c xs with
      | .error e => .error e
      | .ok c₁ => setAll c₁ ys := by
  induction xs generalizing c with
  | nil => simp [setAll]
  | cons it rest ih =>
    rw [List.cons_append]
    simp only [setAll]
    cases ToolResultCache.set c it.1 it.2.1 it.2.2.1 it.2.2.2 <;> simp [ih]

/-- While the cache stays under capacity and the incoming keys are fresh and
serializable, `setAll` appends entries in insertion order. -/
theorem setAll_fill (items : List (Nat × String × PyDict × PyVal)) :
    ∀ c : CacheState,
    (∀ it ∈ items, ∃ k, itemKey it = some k) →
    (c.entries.map Prod.fst ++ items.map (fun it => (itemKey it).getD "")).Nodup →
    c.entries.length + items.length ≤ c.maxSize →
    setAll c items = .ok { c with entries := c.entries ++ items.map entryOf } := by
  induction items with
  | nil =>
    intro c _ _ _
    simp [setAll]
  | cons it rest ih =>
    intro c hkeys hnd hlen
    obtain ⟨k, hk⟩ := hkeys it (List.mem_cons_self _ _)
    have hlt : ¬(c.entries.length ≥ c.maxSize) := by
      simp only [List.length_cons] at hlen
      omega
    have hkm : dictMem c.entries k = false := by
      rw [List.map_cons] at hnd
      rw [Bool.eq_false_iff]
      intro hmem
      have hkA : k ∈ c.entries.map Prod.fst := (dictMem_eq_keys_mem _ _).mp hmem
      have hdisj := (List.nodup_append.mp hnd).2.2
      refine hdisj hkA ?_
      rw [hk]
      exact List.mem_cons_self _ _
    have hstep : ToolResultCache.set c it.1 it.2.1 it.2.2.1 it.2.2.2 =
        .ok { c with entries := c.entries ++ [(k, ⟨it.1, it.2.2.2⟩)] } := by
      simp only [ToolResultCache.set, itemKey] at hk ⊢
      rw [if_neg hlt]
      simp only [hk]
      rw [dictInsert_not_mem c.entries k _ hkm]
    simp only [setAll, hstep]
    have hres := ih { c with entries := c.entries ++ [(k, ⟨it.1, it.2.2.2⟩)] }
      (fun x hx => hkeys x (List.mem_cons_of_mem _ hx))
      (by
        simp only [List.map_append, List.map_cons] at hnd ⊢
        simp only [List.map_nil]
        rw [List.append_assoc]
        simpa [hk] using hnd)
      (by
        simp only [List.length_append, List.length_cons] at hlen ⊢
        simp only [List.length_nil]
        omega)
    rw [hres]
    have hentry : entryOf it = (k, ⟨it.1, it.2.2.2⟩) := by
      simp [entryOf, hk]
    simp [hentry, List.append_assoc]

theorem setAll_bound (items : List (Nat × String × PyDict × PyVal)) :
    ∀ c : CacheState, 0 < c.maxSize → c.entries.length ≤ c.maxSize →
    ∀ c', setAll c items = .ok c' →
      c'.entries.length ≤ c.maxSize ∧ c'.maxSize = c.maxSize := by
  induction items with
  | nil =>
    intro c hsz hlen c' hall
    simp only [setAll] at hall
    have : c = c' := Except.ok.inj hall
    subst this
    exact ⟨hlen, rfl⟩
  | cons it rest ih =>
    intro c hsz hlen c' hall
    simp only [setAll] at hall
    cases hset : ToolResultCache.set c it.1 it.2.1 it.2.2.1 it.2.2.2 with
    | error e => rw [hset] at hall; simp at hall
    | ok c₁ =>
      rw [hset] at hall
      obtain ⟨h₁, h₂, _⟩ := set_bound c it.1 it.2.1 it.2.2.1 it.2.2.2 c₁ hsz hlen hset
      have := ih c₁ (by omega) (by omega) c' hall
      omega

/-- Keys of mapped entries are the item keys. -/
theorem keys_map_entryOf (xs : List (Nat × String × PyDict × PyVal)) :
    (xs.map entryOf).map Prod.fst = xs.map (fun it => (itemKey it).getD "") := by
  induction xs with
  | nil => rfl
  | cons x r ih => simp [entryOf, ih]

/-- C5: from an empty cache with positive capacity `max_size`, inserting
`max_size + 1` items with serializable pairwise-distinct keys at strictly
increasing instants succeeds and leaves exactly the last `max_size` entries
in insertion order — precisely the single globally-oldest entry has been
evicted; and for every sequence of successful `set` calls from the empty
cache the entry count never exceeds `max_size`. -/
theorem cache_eviction_fifo :
    (∀ (ttl maxSize : Nat) (items : List (Nat × String × PyDict × PyVal)),
      0 < maxSize →
      items.length = maxSize + 1 →
      (∀ it ∈ items, ∃ k, itemKey it = some k) →
      (items.map (fun it => (itemKey it).getD "")).Nodup →
      (items.map (fun it => it.1)).Pairwise (· < ·) →
      ∃ c', setAll ⟨ttl, maxSize, []⟩ items = .ok c' ∧
        c'.entries = (items.drop 1).map entryOf ∧
        c'.entries.length = maxSize) ∧
    (∀ (ttl maxSize : Nat) (items : List (Nat × String × PyDict × PyVal)) (c' : CacheState),
      0 < maxSize → setAll ⟨ttl, maxSize, []⟩ items = .ok c' →
      c'.entries.length ≤ maxSize) := by
  constructor
  · intro ttl maxSize items hsz hlen hkeys hnd hts
    rcases List.eq_nil_or_concat items with hnil | ⟨pre, lastIt, hcat⟩
    · rw [hnil] at hlen
      simp at hlen
    rw [List.concat_eq_append] at hcat
    subst hcat
    have hpre : pre.length = maxSize := by
      simp only [List.length_append, List.length_cons, List.length_nil] at hlen
      omega
    obtain ⟨kL, hkL⟩ := hkeys lastIt (by simp)
    cases hp : pre with
    | nil =>
      rw [hp] at hpre
      simp at hpre
      omega
    | cons firstIt mid =>
    subst hp
    obtain ⟨kF, hkF⟩ := hkeys firstIt (by simp)
    -- key lists
    have hkeysplit : ((firstIt :: mid) ++ [lastIt]).map (fun it => (itemKey it).getD "")
        = kF :: (mid.map (fun it => (itemKey it).getD "") ++ [kL]) := by
      simp [hkF, hkL]
    rw [hkeysplit] at hnd
    have hndc := List.nodup_cons.mp hnd
    have hFnotmid : kF ∉ mid.map (fun it => (itemKey it).getD "") := by
      intro hc
      exact hndc.1 (List.mem_append_left _ hc)
    have hLnotmid : kL ∉ mid.map (fun it => (itemKey it).getD "") := by
      intro hc
      have := (List.nodup_append.mp hndc.2).2.2
      exact this hc (List.mem_singleton.mpr rfl)
    -- phase 1: fill the first maxSize items
    have hfill := setAll_fill (firstIt :: mid) ⟨ttl, maxSize, []⟩
      (fun x hx => hkeys x (List.mem_append_left _ hx))
      (by
        simp only [List.map_nil, List.nil_append]
        rw [show (firstIt :: mid).map (fun it => (itemKey it).getD "")
            = kF :: mid.map (fun it => (itemKey it).getD "") by simp [hkF]]
        exact List.nodup_cons.mpr ⟨hFnotmid, (List.nodup_append.mp hndc.2).1⟩)
      (by
        simp only [List.length_nil]
        omega)
    rw [setAll_append (firstIt :: mid) [lastIt] ⟨ttl, maxSize, []⟩, hfill]
    simp only [List.nil_append]
    -- phase 2: the final set evicts the oldest entry
    have hmapc : (firstIt :: mid).map entryOf = entryOf firstIt :: mid.map entryOf := by
      simp
    have hts' : List.Pairwise (· < ·)
        (firstIt.1 :: (mid.map (fun it => it.1) ++ [lastIt.1])) := by
      have hshape : ((firstIt :: mid) ++ [lastIt]).map (fun it => it.1)
          = firstIt.1 :: (mid.map (fun it => it.1) ++ [lastIt.1]) := by simp
      rwa [hshape] at hts
    have hmin : ∀ p ∈ mid.map entryOf, (entryOf firstIt).2.timestamp < p.2.timestamp := by
      intro p hpmem
      obtain ⟨x, hx, hpx⟩ := List.mem_map.mp hpmem
      have hpt := (List.pairwise_cons.mp hts').1
      have hxlt : firstIt.1 < x.1 := hpt x.1 (List.mem_append_left _ (List.mem_map_of_mem _ hx))
      rw [← hpx]
      simpa [entryOf] using hxlt
    have hOld : ToolResultCache.oldestKey ((firstIt :: mid).map entryOf) = some kF := by
      rw [hmapc]
      have := oldestKey_cons_min (entryOf firstIt).1 (entryOf firstIt).2 (mid.map entryOf) hmin
      simpa [entryOf, hkF] using this
    have hFmemMid : dictMem (mid.map entryOf) kF = false := by
      rw [Bool.eq_false_iff]
      intro hc
      apply hFnotmid
      have := (dictMem_eq_keys_mem _ _).mp hc
      rwa [keys_map_entryOf] at this
    have hLmemMid : dictMem (mid.map entryOf) kL = false := by
      rw [Bool.eq_false_iff]
      intro hc
      apply hLnotmid
      have := (dictMem_eq_keys_mem _ _).mp hc
      rwa [keys_map_entryOf] at this
    have herase : dictErase ((firstIt :: mid).map entryOf) kF = mid.map entryOf := by
      rw [hmapc]
      simp only [dictErase, List.filter_cons]
      rw [show (((entryOf firstIt).1 != kF) = false) by simp [entryOf, hkF]]
      have := dictErase_not_mem (mid.map entryOf) kF hFmemMid
      simpa [dictErase] using this
    have hlenmap : ((firstIt :: mid).map entryOf).length = maxSize := by
      simpa using hpre
    have hstep : ToolResultCache.set ⟨ttl, maxSize, (firstIt :: mid).map entryOf⟩
        lastIt.1 lastIt.2.1 lastIt.2.2.1 lastIt.2.2.2 =
        .ok ⟨ttl, maxSize, (mid ++ [lastIt]).map entryOf⟩ := by
      simp only [ToolResultCache.set]
      rw [if_pos (by simp only [hlenmap]; omega)]
      simp only [hOld]
      simp only [itemKey] at hkL
      simp only [hkL]
      rw [herase, dictInsert_not_mem _ _ _ hLmemMid]
      simp [entryOf, itemKey, hkL]
    simp only [setAll, hstep]
    refine ⟨_, rfl, ?_, ?_⟩
    · rfl
    · simp only [List.length_map, List.length_append, List.length_cons, List.length_nil]
      simp only [List.length_cons] at hpre
      omega
  · intro ttl maxSize items c' hsz hall
    exact (setAll_bound items ⟨ttl, maxSize, []⟩ hsz (by simp) c' hall).1

/-- C5 witness: a capacity-2 cache receiving three distinct serializable
pairs at instants 0, 1, 2 ends with exactly the last two entries. -/
theorem cache_eviction_fifo_witness :
    ∃ c', setAll ⟨300, 2, []⟩
        [(0, "t1", [], .str "r1"), (1, "t2", [], .str "r2"), (2, "t3", [], .str "r3")] = .ok c' ∧
      c'.entries = [("t2:\x7b\x7d", ⟨1, .str "r2"⟩), ("t3:\x7b\x7d", ⟨2, .str "r3"⟩)] ∧
      c'.entries.length = 2 := by
  obtain ⟨c', hall, hent, hlen⟩ := cache_eviction_fifo.1 300 2
    [(0, "t1", [], .str "r1"), (1, "t2", [], .str "r2"), (2, "t3", [], .str "r3")]
    (by decide) (by decide)
    (by
      intro it hit
      fin_cases hit
      · exact ⟨"t1:\x7b\x7d", rfl⟩
      · exact ⟨"t2:\x7b\x7d", rfl⟩
      · exact ⟨"t3:\x7b\x7d", rfl⟩)
    (by decide) (by decide)
  refine ⟨c', hall, ?_, hlen⟩
  rw [hent]
  rfl

/-! ## C3: `execute_tool` error handling -/

/-- C3 counterexample: with caching enabled and an argument dictionary
containing a non-JSON-serializable object, the pre-`try` cache lookup raises
`TypeError` out of `execute_tool` — the exception reaches the caller instead
of being converted to a soft result tuple. -/
theorem execute_tool_propagates_cex :
    executeTool (ToolManagerState.init "agent-1" false) (fun _ _ _ => .error "unreachable")
      0 "text_summarize" [("x", .obj 0)] true =
    .error "TypeError: Object of type object is not JSON serializable" := by
  rfl

/-- A `get` on a serializable key never raises. -/
theorem cacheGet_ok (c : CacheState) (now : Nat) (t : String) (a : PyDict) (k : String)
    (hk : ToolResultCache.generateCacheKey t a = some k) :
    ∃ v c₁, ToolResultCache.get c now t a = .ok (v, c₁) := by
  simp only [ToolResultCache.get, hk]
  cases hfd : dictFind? c.entries k with
  | none => exact ⟨_, _, rfl⟩
  | some e =>
    by_cases hexp : now - e.timestamp > c.ttl
    · exact ⟨.pynone, { c with entries := dictErase c.entries k }, by simp [hexp]⟩
    · exact ⟨e.result, c, by simp [hexp]⟩

/-- Every outcome of the `try` block is either a raise (to be caught by the
handler) or a well-shaped result tuple. -/
theorem executeToolTry_shape (st₁ : ToolManagerState)
    (mcpCall : String → String → PyDict → Except String PyVal)
    (now : Nat) (toolName : String) (args : PyDict) (useCache : Bool) :
    (∃ e, executeToolTry st₁ mcpCall now toolName args useCache = .error e) ∨
    ∃ r st', executeToolTry st₁ mcpCall now toolName args useCache = .ok (r, st') ∧
      ((r.1 = true ∧ r.2.2 = none) ∨ (r.1 = false ∧ r.2.1 = .pynone ∧ r.2.2.isSome)) := by
  have tail : ∀ result : PyVal,
      (∃ e, (if useCache then
          match ToolResultCache.set st₁.cache now toolName args result with
          | .error e => .error e
          | .ok cache₂ => .ok ((true, result, none), { st₁ with cache := cache₂ })
        else .ok ((true, result, none), st₁) :
        Except String ((Bool × PyVal × Option String) × ToolManagerState)) = .error e) ∨
      ∃ r st', (if useCache then
          match ToolResultCache.set st₁.cache now toolName args result with
          | .error e => .error e
          | .ok cache₂ => .ok ((true, result, none), { st₁ with cache := cache₂ })
        else .ok ((true, result, none), st₁) :
        Except String ((Bool × PyVal × Option String) × ToolManagerState)) = .ok (r, st') ∧
        ((r.1 = true ∧ r.2.2 = none) ∨ (r.1 = false ∧ r.2.1 = .pynone ∧ r.2.2.isSome)) := by
    intro result
    cases useCache with
    | false => exact Or.inr ⟨(true, result, none), st₁, rfl, Or.inl ⟨rfl, rfl⟩⟩
    | true =>
      cases hset : ToolResultCache.set st₁.cache now toolName args result with
      | error e => exact Or.inl ⟨e, by simp [hset]⟩
      | ok cache₂ =>
        exact Or.inr ⟨(true, result, none), { st₁ with cache := cache₂ },
          by simp [hset], Or.inl ⟨rfl, rfl⟩⟩
  unfold executeToolTry
  cases hfind : dictFind? st₁.tools toolName with
  | none => exact Or.inr ⟨_, _, rfl, Or.inr ⟨rfl, rfl, rfl⟩⟩
  | some tool =>
    dsimp only
    by_cases hb : tool.isBuiltin
    · rw [if_pos hb]
      cases hrun : executeBuiltinTool toolName args with
      | error e => exact Or.inl ⟨e, rfl⟩
      | ok result => exact tail result
    · rw [if_neg hb]
      by_cases hm : st₁.mcpAvailable
      · rw [if_neg (by simp [hm])]
        cases hsp : splitServerTool toolName with
        | none => exact Or.inr ⟨_, _, rfl, Or.inr ⟨rfl, rfl, rfl⟩⟩
        | some p =>
          obtain ⟨serverName, actualToolName⟩ := p
          dsimp only
          cases hcall : mcpCall serverName actualToolName args with
          | error e => exact Or.inl ⟨e, rfl⟩
          | ok result => exact tail result
      · rw [if_pos (by simp [hm])]
        exact Or.inr ⟨_, _, rfl, Or.inr ⟨rfl, rfl, rfl⟩⟩

/-- C3 amended: whenever the cache is bypassed or the arguments are
JSON-serializable, `execute_tool` never lets an exception propagate: it
returns a tuple that is either a success `(True, result, None)` or a soft
failure `(False, None, message)`. -/
theorem execute_tool_soft_errors :
    ∀ (st : ToolManagerState) (mcpCall : String → String → PyDict → Except String PyVal)
      (now : Nat) (toolName : String) (args : PyDict) (useCache : Bool),
      useCache = false ∨ (dumpsDict args).isSome →
      ∃ success result err st',
        executeTool st mcpCall now toolName args useCache = .ok ((success, result, err), st') ∧
        (success = true → err = none) ∧
        (success = false → result = .pynone ∧ err.isSome) := by
  intro st mcpCall now toolName args useCache h
  have handleTry : ∀ (uc : Bool) (st₁ : ToolManagerState),
      ∃ success result err st',
        (match executeToolTry st₁ mcpCall now toolName args uc with
          | .ok r => .ok r
          | .error e => .ok ((false, .pynone, some e), st₁) :
          Except String ((Bool × PyVal × Option String) × ToolManagerState))
          = .ok ((success, result, err), st') ∧
        (success = true → err = none) ∧
        (success = false → result = .pynone ∧ err.isSome) := by
    intro uc st₁
    rcases executeToolTry_shape st₁ mcpCall now toolName args uc with
      ⟨e, he⟩ | ⟨r, st', hr, hshape⟩
    · rw [he]
      exact ⟨false, .pynone, some e, st₁, rfl, by simp, fun _ => ⟨rfl, rfl⟩⟩
    · rw [hr]
      obtain ⟨rs, rv, re⟩ := r
      rcases hshape with ⟨h₁, h₂⟩ | ⟨h₁, h₂, h₃⟩
      · simp only at h₁ h₂
        exact ⟨rs, rv, re, st', rfl, fun _ => h₂, fun hc => absurd (h₁.symm.trans hc) (by simp)⟩
      · simp only at h₁ h₂ h₃
        exact ⟨rs, rv, re, st', rfl, fun hc => absurd (h₁.symm.trans hc) (by simp),
          fun _ => ⟨h₂, h₃⟩⟩
  cases hu : useCache with
  | false =>
    simp only [executeTool, Bool.false_eq_true, if_false]
    exact handleTry false st
  | true =>
    have hser : (dumpsDict args).isSome := by
      rcases h with hf | hs
      · rw [hu] at hf; exact absurd hf (by simp)
      · exact hs
    obtain ⟨ds, hds⟩ := Option.isSome_iff_exists.mp hser
    have hkey : ToolResultCache.generateCacheKey toolName args = some (toolName ++ ":" ++ ds) := by
      rw [ToolResultCache.generateCacheKey, hds]
      rfl
    obtain ⟨v, c₁, hget⟩ := cacheGet_ok st.cache now toolName args _ hkey
    simp only [executeTool, hget, if_true]
    by_cases hv : !v.isNone
    · rw [if_pos hv]
      exact ⟨true, v, none, _, rfl, fun _ => rfl, by simp⟩
    · rw [if_neg hv]
      exact handleTry true { st with cache := c₁ }

/-- C3 witness: an unknown tool name with serializable arguments yields the
soft `(False, None, "not found")` tuple rather than an exception. -/
theorem execute_tool_soft_errors_witness :
    ∃ success result err st',
      executeTool (ToolManagerState.init "agent-1" false) (fun _ _ _ => .error "x")
        0 "no_such_tool" [("a", .int 1)] true = .ok ((success, result, err), st') ∧
      (success = true → err = none) ∧
      (success = false → result = .pynone ∧ err.isSome) := by
  exact execute_tool_soft_errors (ToolManagerState.init "agent-1" false)
    (fun _ _ _ => .error "x") 0 "no_such_tool" [("a", .int 1)] true (Or.inr (by decide))

/-! ## C7: complexity assessment -/

/-- The first-match-then-break keyword loop scores 1 exactly when some
keyword occurs. -/
theorem keywordLoopScore_eq_any (ml : String) (ks : List String) :
    keywordLoopScore ml ks = if ks.any (fun k => strContains ml k) then 1 else 0 := by
  induction ks with
  | nil => rfl
  | cons k rest ih =>
    by_cases h : strContains ml k
    · simp [keywordLoopScore, h]
    · simp [keywordLoopScore, h, ih]

/-- C7: `_assess_complexity` computes exactly the specified category — the
length score (2 over 500 chars, 1 over 200), +1 for more than five context
entries, +1 when the lowercased message contains any fixed keyword, mapped
through the `≥3`/`≥1` thresholds; in particular every 600-character message
containing "analyze" is "high" and the message "hi" with no context is
"low". -/
theorem assess_complexity_spec :
    (∀ (message : String) (context : Option (List PyDict)),
      assessComplexity message context = specComplexity message context) ∧
    (∀ message : String, message.length = 600 →
      "analyze".data <:+: message.data →
      assessComplexity message none = "high") ∧
    assessComplexity "hi" none = "low" := by
  refine ⟨?_, ?_, by rfl⟩
  · intro message context
    unfold assessComplexity specComplexity
    rw [keywordLoopScore_eq_any]
  · intro message hlen hinf
    have hcontains : strContains (strLower message) "analyze" = true := by
      unfold strContains strLower
      rw [decide_eq_true_eq]
      have hmap := List.IsInfix.map Char.toLower hinf
      rw [show List.map Char.toLower "analyze".data = "analyze".data by decide] at hmap
      exact hmap
    have hkw : keywordLoopScore (strLower message) complexKeywords = 1 := by
      simp [complexKeywords, keywordLoopScore, hcontains]
    simp only [assessComplexity, hlen, hkw]
    norm_num

set_option maxRecDepth 100000 in
/-- C7 witness: the theorem applied to a concrete 600-character message
containing "analyze". -/
theorem assess_complexity_spec_witness :
    assessComplexity (String.mk (List.replicate 593 'x') ++ "analyze") none = "high" ∧
    assessComplexity "hi" none = "low" ∧
    assessComplexity "hi" none = specComplexity "hi" none := by
  refine ⟨?_, assess_complexity_spec.2.2, assess_complexity_spec.1 "hi" none⟩
  exact assess_complexity_spec.2.1 (String.mk (List.replicate 593 'x') ++ "analyze")
    (by decide) (by decide)

/-! ## C8: short-term memory buffer -/

/-- C8 counterexample: `get_short_term_memory(0)` returns the whole buffer,
not the most-recent zero items — Python `list[-0:]` is `list[0:]`. -/
theorem get_short_term_limit_zero_cex :
    getShortTermMemory [([("role", PyVal.str "user")] : PyDict)] (some 0)
        = [[("role", PyVal.str "user")]] ∧
    getShortTermMemory [([("role", PyVal.str "user")] : PyDict)] (some 0) ≠ [] := by
  refine ⟨rfl, ?_⟩
  rw [show getShortTermMemory [([("role", PyVal.str "user")] : PyDict)] (some 0)
      = [[("role", PyVal.str "user")]] from rfl]
  simp

/-- Folding `deque.append` keeps exactly the last `capacity` elements. -/
theorem addToShortTerm_foldl (cap : Nat) (items : List α) :
    ∀ b : List α, b.length ≤ cap →
    items.foldl (fun x y => addToShortTerm x cap y) b
      = (b ++ items).drop ((b ++ items).length - cap) := by
  induction items with
  | nil =>
    intro b hb
    rw [List.foldl_nil, List.append_nil, show b.length - cap = 0 by omega, List.drop_zero]
  | cons x xs ih =>
    intro b hb
    rw [List.foldl_cons]
    have hblen : (addToShortTerm b cap x).length ≤ cap := by
      simp only [addToShortTerm]
      rw [List.length_drop]
      omega
    rw [ih _ hblen]
    simp only [addToShortTerm]
    rw [← List.drop_append_of_le_length (Nat.sub_le _ _), List.drop_drop]
    rw [List.append_assoc, List.singleton_append]
    congr 1
    simp only [List.length_append, List.length_drop, List.length_cons, List.length_singleton,
      List.length_nil]
    omega

/-- C8 amended: the short-term buffer is a capacity-20 FIFO — after
`20 + k` insertions it holds exactly the last 20 items in insertion order —
and `get_short_term_memory(limit)` returns the most-recent `limit` items for
every *positive* limit (all items when the limit is omitted); `limit = 0`
returns all items instead of none (see the counterexample). -/
theorem short_term_fifo_and_limit :
    (∀ (items : List PyDict) (k : Nat), items.length = 20 + k →
      items.foldl (fun b x => addToShortTerm b 20 x) [] = items.drop k) ∧
    (∀ (buf : List PyDict) (n : Int), 1 ≤ n →
      getShortTermMemory buf (some n) = buf.drop (buf.length - n.toNat)) ∧
    (∀ buf : List PyDict, getShortTermMemory buf none = buf) := by
  refine ⟨?_, ?_, fun _ => rfl⟩
  · intro items k hlen
    have := addToShortTerm_foldl 20 items [] (by simp)
    rw [List.nil_append] at this
    rw [this, hlen]
    congr 1
    omega
  · intro buf n hn
    simp only [getShortTermMemory, pyDropSlice]
    rw [if_neg (by omega)]
    simp only [neg_neg]

/-- C8 witness: 21 insertions into the capacity-20 buffer keep the last 20;
`get_short_term_memory(2)` returns the 2 most recent items. -/
theorem short_term_fifo_and_limit_witness :
    (List.replicate 21 ([] : PyDict)).foldl (fun b x => addToShortTerm b 20 x) []
        = (List.replicate 21 ([] : PyDict)).drop 1 ∧
    getShortTermMemory (List.replicate 3 ([] : PyDict)) (some 2)
        = (List.replicate 3 ([] : PyDict)).drop 1 := by
  constructor
  · exact short_term_fifo_and_limit.1 (List.replicate 21 []) 1 (by simp)
  · have := short_term_fifo_and_limit.2.1 (List.replicate 3 []) 2 (by omega)
    simpa using this

/-! ## Collaboration: event-shape lemmas -/

/-- The per-agent fold of a round appends exactly one event per agent, in
list order, and threads the completion statuses. -/
theorem turns_fold_spec (names : List (String × String)) (oracle : Oracle) (r : Nat)
    (ids : List String) :
    ∀ st : CollabState,
    (ids.foldl (processTurn names oracle r) st).history
        = st.history ++ turnEventsOfRound names oracle ids r
      ∧ (ids.foldl (processTurn names oracle r) st).statuses
        = turnStatuses oracle r st.statuses ids := by
  induction ids with
  | nil =>
    intro st
    exact ⟨(List.append_nil _).symm, rfl⟩
  | cons a rest ih =>
    intro st
    rw [List.foldl_cons]
    obtain ⟨h1, h2⟩ := ih (processTurn names oracle r st a)
    constructor
    · rw [h1]
      have hh : (processTurn names oracle r st a).history
          = st.history
            ++ [agentTurnEvent ((dictFind? names a).getD a) a (r + 1) (oracle r a).outcome] := rfl
      rw [hh, List.append_assoc]
      rfl
    · rw [h2]
      rfl

/-- One `processRound` appends the agent events and the round summary, and
leaves the statuses reset. -/
theorem processRound_spec (names : List (String × String)) (oracle : Oracle)
    (ids : List String) (r : Nat) (st : CollabState) :
    (processRound names oracle ids r st).history
        = st.history ++ turnEventsOfRound names oracle ids r
          ++ [roundSummaryEvent (r + 1)
              ((turnStatuses oracle r st.statuses ids).all (fun p => p.2))]
      ∧ (processRound names oracle ids r st).statuses
        = resetStatuses (turnStatuses oracle r st.statuses ids) ids := by
  obtain ⟨h1, h2⟩ := turns_fold_spec names oracle r ids st
  unfold processRound
  constructor
  · show (ids.foldl (processTurn names oracle r) st).history ++ _ = _
    rw [h1, h2, List.append_assoc]
  · show resetStatuses (ids.foldl (processTurn names oracle r) st).statuses ids = _
    rw [h2]

/-- The round loop realises the claimed per-round event blocks. -/
theorem runRounds_hist (names : List (String × String)) (oracle : Oracle)
    (ids : List String) :
    ∀ (n r : Nat) (st : CollabState),
    (runRounds names oracle ids n r st).history
      = st.history ++ roundsEventsFrom names oracle ids n r st.statuses := by
  intro n
  induction n with
  | zero =>
    intro r st
    simp [runRounds, roundsEventsFrom]
  | succ k ih =>
    intro r st
    rw [runRounds, ih (r + 1) (processRound names oracle ids r st)]
    obtain ⟨h1, h2⟩ := processRound_spec names oracle ids r st
    rw [h1, h2]
    show _ = st.history ++ (turnEventsOfRound names oracle ids r
      ++ [roundSummaryEvent (r + 1) ((turnStatuses oracle r st.statuses ids).all (fun p => p.2))]
      ++ roundsEventsFrom names oracle ids k (r + 1)
          (resetStatuses (turnStatuses oracle r st.statuses ids) ids))
    simp [List.append_assoc]

/-- Each round block contributes `k + 1` events. -/
theorem roundsEventsFrom_length (names : List (String × String)) (oracle : Oracle)
    (ids : List String) :
    ∀ (n r : Nat) (sts : Statuses),
    (roundsEventsFrom names oracle ids n r sts).length = n * (ids.length + 1) := by
  intro n
  induction n with
  | zero => intro r sts; simp [roundsEventsFrom]
  | succ k ih =>
    intro r sts
    rw [roundsEventsFrom]
    simp only [List.length_append, List.length_cons, List.length_nil, ih,
      turnEventsOfRound, List.length_map]
    ring

theorem isRoundSummary_agentTurnEvent (nm a : String) (r : Nat)
    (out : Except String String) : isRoundSummary (agentTurnEvent nm a r out) = false := by
  cases out <;> rfl

/-- Exactly one round-summary event per round block. -/
theorem roundsEventsFrom_summary_count (names : List (String × String)) (oracle : Oracle)
    (ids : List String) :
    ∀ (n r : Nat) (sts : Statuses),
    ((roundsEventsFrom names oracle ids n r sts).filter isRoundSummary).length = n := by
  intro n
  induction n with
  | zero => intro r sts; rfl
  | succ k ih =>
    intro r sts
    rw [roundsEventsFrom]
    have hturn : (turnEventsOfRound names oracle ids r).filter isRoundSummary = [] := by
      rw [List.filter_eq_nil_iff]
      intro e he
      obtain ⟨a, _, hea⟩ := List.mem_map.mp he
      rw [← hea, isRoundSummary_agentTurnEvent]
      simp
    simp only [List.filter_append, hturn, List.filter_cons]
    rw [show isRoundSummary (roundSummaryEvent (r + 1)
        ((turnStatuses oracle r sts ids).all (fun p => p.2))) = true from rfl]
    simp [ih]

/-- C1: for agent lists that pass validation, `collaborate_agents` returns
exactly the claimed timeline — one initial system event, then for every
round `r = 1..N` one agent event per configured agent in order followed by
one round-summary system event, then one final system event — equalling
`specCollabHistory`, with `N*(k+1)+2` events and `N` round summaries in
total, for every turn oracle (hence independent of per-agent failures). -/
theorem collaborate_agents_event_shape (m : ManagerState) (agentIds : List String)
    (task : String) (coordinatorId : Option String) (maxRounds : Nat) (oracle : Oracle)
    (coordId : String)
    (hval : validateCollab m agentIds coordinatorId = .ok coordId) :
    (collaborateAgents m agentIds task coordinatorId maxRounds oracle).1
        = .ok (specCollabHistory m.names oracle agentIds task maxRounds) ∧
    (specCollabHistory m.names oracle agentIds task maxRounds).length
        = maxRounds * (agentIds.length + 1) + 2 ∧
    ((specCollabHistory m.names oracle agentIds task maxRounds).filter isRoundSummary).length
        = maxRounds := by
  refine ⟨?_, ?_, ?_⟩
  · unfold collaborateAgents
    rw [hval]
    show Except.ok ((collabRoundsState m agentIds task coordId maxRounds oracle).history
        ++ [finalEvent maxRounds]) = _
    unfold collabRoundsState
    rw [runRounds_hist]
    rfl
  · unfold specCollabHistory
    rw [List.length_cons, List.length_append,
      roundsEventsFrom_length m.names oracle agentIds maxRounds 0 (initStatuses agentIds)]
    simp
  · unfold specCollabHistory
    rw [List.filter_cons]
    rw [show isRoundSummary (startEvent task) = false from rfl]
    simp only [List.filter_append,
      roundsEventsFrom_summary_count m.names oracle agentIds maxRounds 0 (initStatuses agentIds)]
    rw [show (List.filter isRoundSummary [finalEvent maxRounds]) = [] from rfl]
    simp [roundsEventsFrom_summary_count]

/-- C1 witness: two agents, two rounds, with one failing turn — the timeline
is the specified 8-event sequence. -/
theorem collaborate_agents_event_shape_witness :
    (collaborateAgents ⟨[("a1", []), ("a2", [])], [("a1", "A"), ("a2", "B")]⟩
        ["a1", "a2"] "t" none 2
        (fun r a => if r == 0 && a == "a1" then ⟨[], .error "boom"⟩ else ⟨[], .ok "done"⟩)).1
      = .ok (specCollabHistory [("a1", "A"), ("a2", "B")]
          (fun r a => if r == 0 && a == "a1" then ⟨[], .error "boom"⟩ else ⟨[], .ok "done"⟩)
          ["a1", "a2"] "t" 2) ∧
    (specCollabHistory [("a1", "A"), ("a2", "B")]
        (fun r a => if r == 0 && a == "a1" then ⟨[], .error "boom"⟩ else ⟨[], .ok "done"⟩)
        ["a1", "a2"] "t" 2).length = 2 * (2 + 1) + 2 := by
  have h := collaborate_agents_event_shape
    ⟨[("a1", []), ("a2", [])], [("a1", "A"), ("a2", "B")]⟩ ["a1", "a2"] "t" none 2
    (fun r a => if r == 0 && a == "a1" then ⟨[], .error "boom"⟩ else ⟨[], .ok "done"⟩)
    "a1" (by rfl)
  exact ⟨h.1, h.2.1⟩

/-! ## C4: validation preconditions -/

/-- C4 counterexample: the coordinator id `""` is explicitly given and is
not registered, yet the call raises no precondition error and succeeds —
line 274 reads `if coordinator_id:`, Python string truthiness, so the empty
string is silently treated as "no coordinator specified" and the first
listed agent is used instead. -/
theorem collaborate_agents_empty_coordinator_cex :
    dictMem (ManagerState.mk [("a1", [])] []).agents "" = false ∧
    exceptIsOk (collaborateAgents ⟨[("a1", [])], []⟩ ["a1"] "t" (some "") 1
        (fun _ _ => ⟨[], .ok "r"⟩)).1 = true := by
  exact ⟨rfl, rfl⟩

/-- `validateCollab` fails exactly on: empty list, unregistered listed id,
or an explicitly given *non-empty* (Python-truthy) unregistered
coordinator id. -/
theorem validateCollab_error_iff (m : ManagerState) (agentIds : List String)
    (coordinatorId : Option String) :
    (∃ e, validateCollab m agentIds coordinatorId = .error e) ↔
      (agentIds = [] ∨ (∃ a ∈ agentIds, dictMem m.agents a = false) ∨
        (∃ c, coordinatorId = some c ∧ c ≠ "" ∧ dictMem m.agents c = false)) := by
  unfold validateCollab
  cases agentIds with
  | nil => exact iff_of_true ⟨_, rfl⟩ (Or.inl rfl)
  | cons a0 rest =>
    cases hfind : (a0 :: rest).find? (fun x => !dictMem m.agents x) with
    | some a =>
      refine iff_of_true ⟨_, rfl⟩ (Or.inr (Or.inl ⟨a, List.mem_of_find?_eq_some hfind, ?_⟩))
      have := List.find?_some hfind
      simpa using this
    | none =>
      have hall : ∀ x ∈ a0 :: rest, dictMem m.agents x = true := by
        intro x hx
        have := List.find?_eq_none.mp hfind x hx
        simpa using this
      cases coordinatorId with
      | none =>
        dsimp only
        refine iff_of_false ?_ ?_
        · rintro ⟨e, he⟩
          cases he
        · rintro (h | ⟨a, ha, hm⟩ | ⟨c, hc, -⟩)
          · cases h
          · rw [hall a ha] at hm
            cases hm
          · cases hc
      | some c =>
        dsimp only
        by_cases hce : c = ""
        · rw [show (c != "") = false by simp [hce]]
          refine iff_of_false ?_ ?_
          · rintro ⟨e, he⟩
            cases he
          · rintro (h | ⟨a, ha, hm⟩ | ⟨c', hc', hne', -⟩)
            · cases h
            · rw [hall a ha] at hm
              cases hm
            · rw [← Option.some.inj hc', hce] at hne'
              exact hne' rfl
        · rw [show (c != "") = true by simp [hce]]
          by_cases hc : dictMem m.agents c
          · rw [if_pos hc]
            refine iff_of_false ?_ ?_
            · rintro ⟨e, he⟩
              cases he
            · rintro (h | ⟨a, ha, hm⟩ | ⟨c', hc', -, hm'⟩)
              · cases h
              · rw [hall a ha] at hm
                cases hm
              · rw [← Option.some.inj hc', hc] at hm'
                cases hm'
          · rw [if_neg hc]
            exact iff_of_true ⟨_, rfl⟩
              (Or.inr (Or.inr ⟨c, rfl, hce, by simpa using hc⟩))

/-- C4 amended: `collaborate_agents` raises exactly when the agent id list
is empty, some listed agent id is unregistered, or an explicitly given
**non-empty** coordinator id is unregistered — Python string truthiness on
line 274 treats an explicitly given empty coordinator id as unspecified,
falling back to the first listed agent (see the counterexample); the raise
happens before any event is produced or any agent context touched, so the
manager state is unchanged on error; and a precondition violation is the
only way the call fails. -/
theorem collaborate_agents_precondition (m : ManagerState) (agentIds : List String)
    (task : String) (coordinatorId : Option String) (maxRounds : Nat) (oracle : Oracle) :
    (exceptIsOk (collaborateAgents m agentIds task coordinatorId maxRounds oracle).1 = false ↔
      (agentIds = [] ∨ (∃ a ∈ agentIds, dictMem m.agents a = false) ∨
        (∃ c, coordinatorId = some c ∧ c ≠ "" ∧ dictMem m.agents c = false))) ∧
    (exceptIsOk (collaborateAgents m agentIds task coordinatorId maxRounds oracle).1 = false →
      (collaborateAgents m agentIds task coordinatorId maxRounds oracle).2 = m) := by
  unfold collaborateAgents
  cases hv : validateCollab m agentIds coordinatorId with
  | error e =>
    refine ⟨iff_of_true rfl ((validateCollab_error_iff m agentIds coordinatorId).mp ⟨e, hv⟩),
      fun _ => rfl⟩
  | ok coordId =>
    refine ⟨iff_of_false (by simp [exceptIsOk]) ?_, fun hc => absurd hc (by simp [exceptIsOk])⟩
    intro hrhs
    obtain ⟨e, he⟩ := (validateCollab_error_iff m agentIds coordinatorId).mpr hrhs
    rw [hv] at he
    cases he

/-- C4 witness: an unknown agent id makes the call fail with the manager
unchanged; the same manager with its registered agent succeeds. -/
theorem collaborate_agents_precondition_witness :
    exceptIsOk (collaborateAgents ⟨[("a1", [])], []⟩ ["zz"] "t" none 1
        (fun _ _ => ⟨[], .ok "r"⟩)).1 = false ∧
    (collaborateAgents ⟨[("a1", [])], []⟩ ["zz"] "t" none 1
        (fun _ _ => ⟨[], .ok "r"⟩)).2 = ⟨[("a1", [])], []⟩ := by
  have h := collaborate_agents_precondition ⟨[("a1", [])], []⟩ ["zz"] "t" none 1
    (fun _ _ => ⟨[], .ok "r"⟩)
  have h1 : exceptIsOk (collaborateAgents ⟨[("a1", [])], []⟩ ["zz"] "t" none 1
      (fun _ _ => ⟨[], .ok "r"⟩)).1 = false :=
    h.1.mpr (Or.inr (Or.inl ⟨"zz", by simp, by rfl⟩))
  exact ⟨h1, h.2 h1⟩

/-! ## C2: the streaming variant -/

/-- The duplicated per-turn bodies coincide. -/
theorem processTurnStream_eq : @processTurnStream = @processTurn := rfl

/-- The duplicated per-round bodies coincide. -/
theorem processRoundStream_eq : @processRoundStream = @processRound := by
  funext names oracle ids r st
  unfold processRoundStream processRound
  rw [show @processTurnStream = @processTurn from rfl]

/-- The duplicated round loops coincide. -/
theorem runRoundsStream_eq (names : List (String × String)) (oracle : Oracle)
    (ids : List String) : ∀ (n r : Nat) (st : CollabState),
    runRoundsStream names oracle ids n r st = runRounds names oracle ids n r st := by
  intro n
  induction n with
  | zero => intro r st; rfl
  | succ k ih =>
    intro r st
    rw [runRoundsStream, runRounds, processRoundStream_eq, ih]

/-- C2 amended, part 1: `collaborate_agents_stream` yields exactly the
buffered history — per-agent errors are caught, yielded as error-tagged
agent events, and the run continues through all remaining rounds, for every
oracle; and the SSE layer emits its error marker (stopping the stream) only
when the generator itself raises, i.e. on a precondition violation, which
happens before any event. -/
theorem collaborate_stream_matches_buffered :
    (∀ (m : ManagerState) (agentIds : List String) (task : String)
      (coordinatorId : Option String) (maxRounds : Nat) (oracle : Oracle),
      collaborateAgentsStream m agentIds task coordinatorId maxRounds oracle
        = collaborateAgents m agentIds task coordinatorId maxRounds oracle) ∧
    (∀ evs : List CollabEvent, eventGenerator (.ok evs)
        = evs.map SSEMessage.message ++ [SSEMessage.complete]) ∧
    (∀ e : String, eventGenerator (.error e) = [SSEMessage.errorMarker e]) := by
  refine ⟨?_, fun _ => rfl, fun _ => rfl⟩
  intro m agentIds task coordinatorId maxRounds oracle
  unfold collaborateAgentsStream collaborateAgents collabRoundsState
  cases validateCollab m agentIds coordinatorId with
  | error e => rfl
  | ok coordId =>
    simp only [runRoundsStream_eq]

/-- C2 counterexample: with two agents and two rounds, a per-agent error in
round 1 does *not* abort the streaming run — the stream still yields all
eight events including both round-2 agent events and the final summary, and
the SSE wrapper forwards them all, ending with the completion marker and no
error marker. -/
theorem collaborate_stream_continues_after_error_cex :
    (collaborateAgentsStream ⟨[("a1", []), ("a2", [])], [("a1", "A"), ("a2", "B")]⟩
        ["a1", "a2"] "t" none 2
        (fun r a => if r == 0 && a == "a1" then ⟨[], .error "boom"⟩ else ⟨[], .ok "done"⟩)).1
      = .ok
        [{ role := .system, content := "Starting collaboration on task: t" },
         { role := .agent, content := "[A]: Error - boom", agentId := some "a1",
           agentName := some "A", round := some 1, completed := some false,
           error := some true },
         { role := .agent, content := "[B]: done", agentId := some "a2",
           agentName := some "B", round := some 1, completed := some true },
         { role := .system, content := "Round 1 completed. All agents responded: False",
           round := some 1, allCompleted := some false },
         { role := .agent, content := "[A]: done", agentId := some "a1",
           agentName := some "A", round := some 2, completed := some true },
         { role := .agent, content := "[B]: done", agentId := some "a2",
           agentName := some "B", round := some 2, completed := some true },
         { role := .system, content := "Round 2 completed. All agents responded: True",
           round := some 2, allCompleted := some true },
         { role := .system, content := "Collaboration completed after 2 rounds",
           totalRounds := some 2 }] ∧
    (eventGenerator (collaborateAgentsStream ⟨[("a1", []), ("a2", [])], [("a1", "A"), ("a2", "B")]⟩
        ["a1", "a2"] "t" none 2
        (fun r a => if r == 0 && a == "a1" then ⟨[], .error "boom"⟩ else ⟨[], .ok "done"⟩)).1).length = 9 ∧
    ∀ msg, SSEMessage.errorMarker msg ∉
      eventGenerator (collaborateAgentsStream ⟨[("a1", []), ("a2", [])], [("a1", "A"), ("a2", "B")]⟩
        ["a1", "a2"] "t" none 2
        (fun r a => if r == 0 && a == "a1" then ⟨[], .error "boom"⟩ else ⟨[], .ok "done"⟩)).1 := by
  refine ⟨by rfl, by rfl, ?_⟩
  intro msg hmem
  rw [show (eventGenerator (collaborateAgentsStream
      ⟨[("a1", []), ("a2", [])], [("a1", "A"), ("a2", "B")]⟩ ["a1", "a2"] "t" none 2
      (fun r a => if r == 0 && a == "a1" then ⟨[], .error "boom"⟩ else ⟨[], .ok "done"⟩)).1)
    = (((collaborateAgentsStream ⟨[("a1", []), ("a2", [])], [("a1", "A"), ("a2", "B")]⟩
        ["a1", "a2"] "t" none 2
        (fun r a => if r == 0 && a == "a1" then ⟨[], .error "boom"⟩ else ⟨[], .ok "done"⟩)).1.toOption.getD []).map
        SSEMessage.message ++ [SSEMessage.complete]) from rfl] at hmem
  rcases List.mem_append.mp hmem with hm | hm
  · obtain ⟨e, -, he⟩ := List.mem_map.mp hm
    cases he
  · simp at hm

/-! ## C10: environment-context frame lemmas -/

/-- Effect of a single-binding `update_environment_context` broadcast on one
agent: participating agents get exactly that binding merged, all other keys
and all other agents are untouched. -/
theorem applyCtx_single (kk : String) (vv : PyVal) (ids : List String) :
    ∀ (agents : List (String × PyDict)) (a : String) (ctx : PyDict),
    dictFind? agents a = some ctx →
    ∃ ctx', dictFind? (applyCtxToAgents agents ids [(kk, vv)]) a = some ctx' ∧
      (∀ k, k ≠ kk → dictFind? ctx' k = dictFind? ctx k) ∧
      (a ∈ ids → dictFind? ctx' kk = some vv) ∧
      (a ∉ ids → ctx' = ctx) := by
  induction ids with
  | nil =>
    intro agents a ctx h
    exact ⟨ctx, h, fun _ _ => rfl, fun hmem => absurd hmem (List.not_mem_nil a), fun _ => rfl⟩
  | cons b rest ih =>
    intro agents a ctx h
    rw [show applyCtxToAgents agents (b :: rest) [(kk, vv)]
        = applyCtxToAgents (applyCtxToAgents.step [(kk, vv)] agents b) rest [(kk, vv)] from rfl]
    by_cases hba : b = a
    · subst hba
      have hstep : dictFind? (applyCtxToAgents.step [(kk, vv)] agents b) b
          = some (dictInsert ctx kk vv) := by
        unfold applyCtxToAgents.step
        rw [h]
        exact dictFind?_insert_self agents b _
      obtain ⟨ctx', hfind, hne, hmem, hnot⟩ := ih _ b _ hstep
      refine ⟨ctx', hfind, ?_, ?_, ?_⟩
      · intro k hk
        rw [hne k hk, dictFind?_insert_ne ctx kk vv k hk]
      · intro _
        by_cases hbr : b ∈ rest
        · exact hmem hbr
        · rw [hnot hbr]
          exact dictFind?_insert_self ctx kk vv
      · intro hn
        exact absurd (List.mem_cons_self b rest) hn
    · have hstep : dictFind? (applyCtxToAgents.step [(kk, vv)] agents b) a = some ctx := by
        unfold applyCtxToAgents.step
        cases hb : dictFind? agents b with
        | none => exact h
        | some ctxb =>
          dsimp only
          rw [dictFind?_insert_ne agents b _ a (fun hc => hba hc.symm)]
          exact h
      obtain ⟨ctx', hfind, hne, hmem, hnot⟩ := ih _ a _ hstep
      refine ⟨ctx', hfind, hne, ?_, ?_⟩
      · intro hmem'
        rcases List.mem_cons.mp hmem' with hc | hc
        · exact absurd hc.symm hba
        · exact hmem hc
      · intro hn
        exact hnot (fun hc => hn (List.mem_cons_of_mem b hc))

/-- The collaboration-context broadcast only merges: existing keys stay
present, and every key of the merged object becomes present for
participating agents. -/
theorem applyCtx_mono (u : PyDict) (ids : List String) :
    ∀ (agents : List (String × PyDict)) (a : String) (ctx : PyDict),
    dictFind? agents a = some ctx →
    ∃ ctx', dictFind? (applyCtxToAgents agents ids u) a = some ctx' ∧
      (∀ k, (dictFind? ctx k).isSome → (dictFind? ctx' k).isSome) ∧
      (a ∈ ids → ∀ k, k ∈ u.map Prod.fst → (dictFind? ctx' k).isSome) := by
  induction ids with
  | nil =>
    intro agents a ctx h
    exact ⟨ctx, h, fun _ hk => hk, fun hmem => absurd hmem (List.not_mem_nil a)⟩
  | cons b rest ih =>
    intro agents a ctx h
    rw [show applyCtxToAgents agents (b :: rest) u
        = applyCtxToAgents (applyCtxToAgents.step u agents b) rest u from rfl]
    by_cases hba : b = a
    · subst hba
      have hstep : dictFind? (applyCtxToAgents.step u agents b) b
          = some (dictUpdate ctx u) := by
        unfold applyCtxToAgents.step
        rw [h]
        exact dictFind?_insert_self agents b _
      obtain ⟨ctx', hfind, hmono, hkeys⟩ := ih _ b _ hstep
      refine ⟨ctx', hfind, ?_, ?_⟩
      · intro k hk
        exact hmono k (isSome_dictFind?_update ctx u k hk)
      · intro _ k hku
        exact hmono k (isSome_dictFind?_update_key ctx u k hku)
    · have hstep : dictFind? (applyCtxToAgents.step u agents b) a = some ctx := by
        unfold applyCtxToAgents.step
        cases hb : dictFind? agents b with
        | none => exact h
        | some ctxb =>
          dsimp only
          rw [dictFind?_insert_ne agents b _ a (fun hc => hba hc.symm)]
          exact h
      obtain ⟨ctx', hfind, hmono, hkeys⟩ := ih _ a _ hstep
      refine ⟨ctx', hfind, hmono, ?_⟩
      intro hmem' k hku
      rcases List.mem_cons.mp hmem' with hc | hc
      · exact absurd hc.symm hba
      · exact hkeys hc k hku

/-- Per-turn context writes are merges: key presence is preserved across a
per-round agent fold. -/
theorem turns_fold_mono (names : List (String × String)) (oracle : Oracle) (r : Nat)
    (ids : List String) :
    ∀ (st : CollabState) (a : String) (ctx : PyDict), dictFind? st.agents a = some ctx →
    ∃ ctx', dictFind? ((ids.foldl (processTurn names oracle r) st).agents) a = some ctx' ∧
      ∀ k, (dictFind? ctx k).isSome → (dictFind? ctx' k).isSome := by
  induction ids with
  | nil => exact fun st a ctx h => ⟨ctx, h, fun _ hk => hk⟩
  | cons b rest ih =>
    intro st a ctx h
    rw [List.foldl_cons]
    by_cases hba : b = a
    · subst hba
      have hstep : dictFind? ((processTurn names oracle r st b).agents) b
          = some (dictUpdate ctx (oracle r b).ctxMerges) := by
        show dictFind? (match dictFind? st.agents b with
          | some ctxb => dictInsert st.agents b (dictUpdate ctxb (oracle r b).ctxMerges)
          | none => st.agents) b = _
        rw [h]
        exact dictFind?_insert_self st.agents b _
      obtain ⟨ctx', hfind, hmono⟩ := ih _ b _ hstep
      exact ⟨ctx', hfind, fun k hk => hmono k (isSome_dictFind?_update ctx _ k hk)⟩
    · have hstep : dictFind? ((processTurn names oracle r st b).agents) a = some ctx := by
        show dictFind? (match dictFind? st.agents b with
          | some ctxb => dictInsert st.agents b (dictUpdate ctxb (oracle r b).ctxMerges)
          | none => st.agents) a = _
        cases hb : dictFind? st.agents b with
        | none => exact h
        | some ctxb =>
          dsimp only
          rw [dictFind?_insert_ne st.agents b _ a (fun hc => hba hc.symm)]
          exact h
      exact ih _ a _ hstep

/-- Key presence is preserved across the whole round loop. -/
theorem runRounds_mono (names : List (String × String)) (oracle : Oracle)
    (ids : List String) :
    ∀ (n r : Nat) (st : CollabState) (a : String) (ctx : PyDict),
    dictFind? st.agents a = some ctx →
    ∃ ctx', dictFind? ((runRounds names oracle ids n r st).agents) a = some ctx' ∧
      ∀ k, (dictFind? ctx k).isSome → (dictFind? ctx' k).isSome := by
  intro n
  induction n with
  | zero => exact fun r st a ctx h => ⟨ctx, h, fun _ hk => hk⟩
  | succ nn ih =>
    intro r st a ctx h
    rw [runRounds]
    obtain ⟨ctx₁, hfind₁, hmono₁⟩ := turns_fold_mono names oracle r ids st a ctx h
    have hagents : (processRound names oracle ids r st).agents
        = ((ids.foldl (processTurn names oracle r) st).agents) := rfl
    obtain ⟨ctx', hfind', hmono'⟩ := ih (r + 1) (processRound names oracle ids r st) a ctx₁
      (by rw [hagents]; exact hfind₁)
    exact ⟨ctx', hfind', fun k hk => hmono' k (hmono₁ k hk)⟩

/-- A successful validation certifies every listed agent id. -/
theorem validateCollab_ok_all (m : ManagerState) (agentIds : List String)
    (coordinatorId : Option String) (coordId : String)
    (hval : validateCollab m agentIds coordinatorId = .ok coordId) :
    ∀ a ∈ agentIds, dictMem m.agents a = true := by
  intro a ha
  unfold validateCollab at hval
  cases agentIds with
  | nil => cases hval
  | cons a0 rest =>
    cases hfind : (a0 :: rest).find? (fun x => !dictMem m.agents x) with
    | some x => rw [hfind] at hval; cases hval
    | none =>
      have := List.find?_eq_none.mp hfind a ha
      simpa using this

/-- C10: finalization merges only `{in_collaboration: false}` into each
participating agent: relative to the pre-finalization state every other
context key is unchanged, and the collaboration keys written at
initialization (`total_agents`, `agent_ids`, `coordinator_id`, `task`)
remain present in every participating agent's environment context. -/
theorem collaborate_finalize_frame (m : ManagerState) (agentIds : List String)
    (task : String) (coordinatorId : Option String) (maxRounds : Nat) (oracle : Oracle)
    (coordId : String)
    (hval : validateCollab m agentIds coordinatorId = .ok coordId) :
    ∃ evs m', collaborateAgents m agentIds task coordinatorId maxRounds oracle
        = (.ok evs, m') ∧
      m'.agents = applyCtxToAgents
        (collabRoundsState m agentIds task coordId maxRounds oracle).agents agentIds
        [("in_collaboration", .bool false)] ∧
      ∀ a ∈ agentIds, ∃ ctxPre ctxPost,
        dictFind? (collabRoundsState m agentIds task coordId maxRounds oracle).agents a
          = some ctxPre ∧
        dictFind? m'.agents a = some ctxPost ∧
        dictFind? ctxPost "in_collaboration" = some (.bool false) ∧
        (∀ k, k ≠ "in_collaboration" → dictFind? ctxPost k = dictFind? ctxPre k) ∧
        (dictFind? ctxPost "total_agents").isSome ∧
        (dictFind? ctxPost "agent_ids").isSome ∧
        (dictFind? ctxPost "coordinator_id").isSome ∧
        (dictFind? ctxPost "task").isSome := by
  have hrun : collaborateAgents m agentIds task coordinatorId maxRounds oracle
      = (.ok ((collabRoundsState m agentIds task coordId maxRounds oracle).history
            ++ [finalEvent maxRounds]),
         ManagerState.mk
           (applyCtxToAgents
             (collabRoundsState m agentIds task coordId maxRounds oracle).agents
             agentIds [("in_collaboration", .bool false)])
           m.names) := by
    unfold collaborateAgents
    rw [hval]
  refine ⟨_, _, hrun, rfl, ?_⟩
  intro a ha
  have hmem := validateCollab_ok_all m agentIds coordinatorId coordId hval a ha
  rw [dictMem_eq_isSome] at hmem
  obtain ⟨ctx₀, h₀⟩ := Option.isSome_iff_exists.mp hmem
  obtain ⟨ctx₁, hf₁, hmono₁, hkeys₁⟩ :=
    applyCtx_mono (collabContext agentIds coordId task) agentIds m.agents a ctx₀ h₀
  obtain ⟨ctxPre, hfPre, hmonoPre⟩ :=
    runRounds_mono m.names oracle agentIds maxRounds 0
      { agents := applyCtxToAgents m.agents agentIds (collabContext agentIds coordId task),
        statuses := initStatuses agentIds,
        history := [startEvent task] } a ctx₁ hf₁
  have hfPre' : dictFind?
      (collabRoundsState m agentIds task coordId maxRounds oracle).agents a = some ctxPre :=
    hfPre
  obtain ⟨ctxPost, hfPost, hneP, hmemP, -⟩ :=
    applyCtx_single "in_collaboration" (.bool false) agentIds
      (collabRoundsState m agentIds task coordId maxRounds oracle).agents a ctxPre hfPre'
  have hpres : ∀ k : String, k ∈ (collabContext agentIds coordId task).map Prod.fst →
      k ≠ "in_collaboration" → (dictFind? ctxPost k).isSome := by
    intro k hk hkne
    rw [hneP k hkne]
    exact hmonoPre k (hkeys₁ ha k hk)
  refine ⟨ctxPre, ctxPost, hfPre', hfPost, hmemP ha, hneP, ?_, ?_, ?_, ?_⟩
  · exact hpres "total_agents" (by simp [collabContext]) (by decide)
  · exact hpres "agent_ids" (by simp [collabContext]) (by decide)
  · exact hpres "coordinator_id" (by simp [collabContext]) (by decide)
  · exact hpres "task" (by simp [collabContext]) (by decide)

/-- C10 witness: the theorem instantiated on a concrete two-agent manager
and an oracle that writes extra context keys during turns. -/
theorem collaborate_finalize_frame_witness :
    ∃ evs m', collaborateAgents ⟨[("a1", [("note", PyVal.str "n")]), ("a2", [])],
        [("a1", "A"), ("a2", "B")]⟩
        ["a1", "a2"] "t" none 2
        (fun _ _ => ⟨[("last_message", .str "m")], .ok "done"⟩) = (.ok evs, m') ∧
      ∀ a ∈ ["a1", "a2"], ∃ ctxPost,
        dictFind? m'.agents a = some ctxPost ∧
        dictFind? ctxPost "in_collaboration" = some (.bool false) ∧
        (dictFind? ctxPost "total_agents").isSome ∧
        (dictFind? ctxPost "task").isSome := by
  obtain ⟨evs, m', hrun, -, hall⟩ := collaborate_finalize_frame
    ⟨[("a1", [("note", PyVal.str "n")]), ("a2", [])], [("a1", "A"), ("a2", "B")]⟩
    ["a1", "a2"] "t" none 2 (fun _ _ => ⟨[("last_message", .str "m")], .ok "done"⟩)
    "a1" (by rfl)
  refine ⟨evs, m', hrun, ?_⟩
  intro a ha
  obtain ⟨ctxPre, ctxPost, -, hfPost, hin, -, htot, -, -, htask⟩ := hall a ha
  exact ⟨ctxPost, hfPost, hin, htot, htask⟩
